import Mathlib

/-!
# Verification of the exchange REST-client pattern of `arbtrbot`

Shallow embedding of the four exchange clients found in
`src/bot/services/api/{bingx,bitget,bybit,coinbase}.py`.  Conventions:

* Python `dict[str, str]` values are association lists `List (String × String)`
  in insertion order; real dicts have unique keys, recorded as a `KeysNodup`
  hypothesis where a proof needs it.  Dict assignment `d[k] = v` is `dictSet`.
* Clock reads (`time.time()`), the aiohttp transport and the server's replies
  are external inputs; every call receives them explicitly in a `CallEnv`.
  The HTTP layer is an oracle `SentRequest → Except String R` that bundles
  transport, status check and JSON parsing — the claims under study do not
  depend on status-code handling.
* `hmac.new(secret, msg, sha256).hexdigest()` is an external library
  primitive; it is passed in as an explicit function argument
  `hmacHex : String → String → String` (secret, message ↦ hex digest).
  Statements about signature sensitivity assume it collision-free
  (`Function.Injective (hmacHex s)`), the standard idealization.
* JSON numbers that Python converts with `float(...)` are carried as exact
  rationals `Rat`; the string-to-float parse is not itself under study.
* aiohttp session objects are represented by identifiers `Nat`, drawn from a
  counter in `ClientState`, so that "a fresh session" is expressible.
-/

namespace Arbtr

/-! ## Python dictionary primitives -/

/-- Python dict assignment `d[k] = v` on an association list: replaces the
value in place when the key is present (keeping its position, as CPython
dicts do), otherwise appends the new pair at the end. -/
def dictSet {α : Type} (d : List (String × α)) (k : String) (v : α) : List (String × α) :=
  if (d.map Prod.fst).contains k then
    d.map (fun p => if p.1 = k then (k, v) else p)
  else d ++ [(k, v)]

/-- One step of the dict comprehension
`{symbol: ob for symbol, ob in results if ob is not None}`. -/
def dictStep {β : Type} (acc : List (String × β)) (sr : String × Option β) : List (String × β) :=
  match sr.2 with
  | some v => dictSet acc sr.1 v
  | none => acc

/-- First-match association lookup, Python `d[k]` / `d.get(k)`. -/
def alookup {α : Type} (d : List (String × α)) (k : String) : Option α :=
  match d with
  | [] => none
  | (k', v) :: rest => if k' = k then some v else alookup rest k

/-- The keys of an association list, in order. -/
def keysOf {α : Type} (d : List (String × α)) : List String := d.map Prod.fst

/-- A real Python dict never repeats a key. -/
def KeysNodup {α : Type} (d : List (String × α)) : Prop := (keysOf d).Nodup

instance {α : Type} (d : List (String × α)) : Decidable (KeysNodup d) :=
  inferInstanceAs (Decidable ((keysOf d).Nodup))

/-- Python truthiness of an optional list (`None` and `{}`/`[]` are falsy). -/
def pyTruthy {α : Type} (l : Option (List α)) : Bool :=
  match l with
  | none => false
  | some xs => !xs.isEmpty

/-! ## `urllib.parse.quote_plus` and `urlencode`

`urlencode(items)` renders `k=v` pairs joined by `&`, each key and value
escaped by `quote_plus`: bytes of the UTF-8 encoding are kept verbatim when
in `ALWAYS_SAFE` (letters, digits, `_ . - ~`), a space becomes `+`, every
other byte becomes an upper-case `%XX` escape. -/

/-- Upper-case hexadecimal digit (the `%02X` format used by `quote`). -/
def hexDigitU : Nat → Char
  | 0 => '0'
  | 1 => '1'
  | 2 => '2'
  | 3 => '3'
  | 4 => '4'
  | 5 => '5'
  | 6 => '6'
  | 7 => '7'
  | 8 => '8'
  | 9 => '9'
  | 10 => 'A'
  | 11 => 'B'
  | 12 => 'C'
  | 13 => 'D'
  | 14 => 'E'
  | _ => 'F'

/-- The three-character `%XX` escape of one byte. -/
def pctByte (b : Nat) : List Char := ['%', hexDigitU (b / 16), hexDigitU (b % 16)]

/-- UTF-8 encoding of a Unicode code point, as a list of byte values. -/
def utf8Bytes (n : Nat) : List Nat :=
  if n < 128 then [n]
  else if n < 2048 then [192 + n / 64, 128 + n % 64]
  else if n < 65536 then [224 + n / 4096, 128 + n / 64 % 64, 128 + n % 64]
  else [240 + n / 262144, 128 + n / 4096 % 64, 128 + n / 64 % 64, 128 + n % 64]

/-- Membership of a byte in `urllib`'s `ALWAYS_SAFE` set:
digits, upper-case letters, lower-case letters, `_`, `.`, `-`, `~`. -/
def safeByte (n : Nat) : Bool :=
  (48 ≤ n && n ≤ 57) || (65 ≤ n && n ≤ 90) || (97 ≤ n && n ≤ 122) ||
    n == 95 || n == 46 || n == 45 || n == 126

/-- `quote_plus` on a single character. -/
def encChar (c : Char) : List Char :=
  if safeByte c.toNat then [c]
  else if c.toNat = 32 then ['+']
  else (utf8Bytes c.toNat).flatMap pctByte

/-- `urllib.parse.quote_plus` on a string. -/
def pyQuotePlus (s : String) : String := ⟨s.data.flatMap encChar⟩

/-- `'&'.join(pieces)`. -/
def joinAmp : List String → String
  | [] => ""
  | [x] => x
  | x :: rest => x ++ "&" ++ joinAmp rest

/-- `''.join(pieces)`. -/
def concatAll : List String → String
  | [] => ""
  | x :: rest => x ++ concatAll rest

/-- `urllib.parse.urlencode` over key/value pairs (in the given order):
`k=v` pieces joined with `&`. -/
def urlencodeItems (items : List (String × String)) : String :=
  joinAmp (items.map fun kv => pyQuotePlus kv.1 ++ "=" ++ pyQuotePlus kv.2)

/-! ## Python `sorted` on parameter items

`sorted(params.items())` (BingX) compares `(key, value)` tuples
lexicographically; `sorted(params.items(), key=lambda x: x[0])` (the other
clients) compares keys only.  Python's sort is stable, as is
`List.insertionSort`; on dicts (distinct keys) both comparisons produce the
unique key-sorted ordering. -/

/-- Code-point lexicographic strict order on character lists — how Python
compares `str` values (and extensionally the order used by `sorted`).
Defined from scratch because the comparison must evaluate inside the
kernel for concrete witnesses. -/
def listCharLt : List Char → List Char → Bool
  | [], [] => false
  | [], _ :: _ => true
  | _ :: _, [] => false
  | a :: as, b :: bs =>
    if a.toNat < b.toNat then true
    else if b.toNat < a.toNat then false
    else listCharLt as bs

/-- Python `str` strict comparison. -/
def strLt (a b : String) : Bool := listCharLt a.data b.data

/-- Python `str` non-strict comparison as a proposition. -/
def strLe (a b : String) : Prop := strLt a b = true ∨ a = b

lemma char_eq_of_toNat_eq {a b : Char} (h : a.toNat = b.toNat) : a = b := by
  simpa [Char.ext_iff, UInt32.ext_iff] using h

lemma listCharLt_asymm :
    ∀ x y, listCharLt x y = true → listCharLt y x = true → False := by
  intro x
  induction x with
  | nil => intro y hxy hyx; cases y <;> simp [listCharLt] at hxy hyx
  | cons a as ih =>
    intro y hxy hyx
    cases y with
    | nil => simp [listCharLt] at hxy
    | cons b bs =>
      simp only [listCharLt] at hxy hyx
      split_ifs at hxy hyx with h1 h2 h3 h4 <;> try omega
      exact ih bs hxy hyx

lemma listCharLt_total :
    ∀ x y, listCharLt x y = false → listCharLt y x = false → x = y := by
  intro x
  induction x with
  | nil => intro y hxy _; cases y <;> simp [listCharLt] at hxy ⊢
  | cons a as ih =>
    intro y hxy hyx
    cases y with
    | nil => simp [listCharLt] at hyx
    | cons b bs =>
      simp only [listCharLt] at hxy hyx
      split_ifs at hxy hyx with h1 h2 h3 h4 <;> try omega
      have hab : a = b := char_eq_of_toNat_eq (by omega)
      have : as = bs := ih bs hxy hyx
      rw [hab, this]

lemma listCharLt_trans :
    ∀ x y z, listCharLt x y = true → listCharLt y z = true → listCharLt x z = true := by
  intro x
  induction x with
  | nil =>
    intro y z hxy hyz
    cases y with
    | nil => simp [listCharLt] at hxy
    | cons b bs => cases z with
      | nil => simp [listCharLt] at hyz
      | cons c cs => simp [listCharLt]
  | cons a as ih =>
    intro y z hxy hyz
    cases y with
    | nil => simp [listCharLt] at hxy
    | cons b bs =>
      cases z with
      | nil => simp [listCharLt] at hyz
      | cons c cs =>
        simp only [listCharLt] at hxy hyz ⊢
        split_ifs at hxy hyz ⊢ with h1 h2 h3 h4 h5 h6 <;> try omega
        all_goals try exact ih bs cs hxy hyz
        all_goals simp_all

lemma strLe_total (a b : String) : strLe a b ∨ strLe b a := by
  unfold strLe strLt
  rcases h1 : listCharLt a.data b.data with _ | _
  · rcases h2 : listCharLt b.data a.data with _ | _
    · left; right
      have := listCharLt_total a.data b.data h1 h2
      cases a; cases b; exact congrArg String.mk this
    · right; left; rfl
  · left; left; rfl

lemma strLe_trans {a b c : String} (h1 : strLe a b) (h2 : strLe b c) : strLe a c := by
  rcases h1 with h1 | rfl
  · rcases h2 with h2 | rfl
    · exact Or.inl (listCharLt_trans a.data b.data c.data h1 h2)
    · exact Or.inl h1
  · exact h2

lemma strLe_antisymm {a b : String} (h1 : strLe a b) (h2 : strLe b a) : a = b := by
  rcases h1 with h1 | rfl
  · rcases h2 with h2 | rfl
    · exact absurd (listCharLt_asymm a.data b.data h1 h2) (by simp)
    · rfl
  · rfl

lemma strLt_asymm {a b : String} (h1 : strLt a b = true) (h2 : strLt b a = true) : False :=
  listCharLt_asymm a.data b.data h1 h2

lemma strLt_or_eq_or_gt (a b : String) :
    strLt a b = true ∨ a = b ∨ strLt b a = true := by
  unfold strLt
  rcases h1 : listCharLt a.data b.data with _ | _
  · rcases h2 : listCharLt b.data a.data with _ | _
    · right; left
      have := listCharLt_total a.data b.data h1 h2
      cases a; cases b; exact congrArg String.mk this
    · right; right; rfl
  · left; rfl

lemma strLt_trans {a b c : String} (h1 : strLt a b = true) (h2 : strLt b c = true) :
    strLt a c = true :=
  listCharLt_trans a.data b.data c.data h1 h2

/-- Python tuple comparison on string pairs. -/
def pairLeTuple (a b : String × String) : Prop :=
  strLt a.1 b.1 = true ∨ (a.1 = b.1 ∧ strLe a.2 b.2)

instance : DecidableRel pairLeTuple := fun a b => by
  unfold pairLeTuple strLe; infer_instance

instance : IsTotal (String × String) pairLeTuple := by
  constructor
  intro a b
  rcases strLt_or_eq_or_gt a.1 b.1 with h | h | h
  · exact Or.inl (Or.inl h)
  · rcases strLe_total a.2 b.2 with h2 | h2
    · exact Or.inl (Or.inr ⟨h, h2⟩)
    · exact Or.inr (Or.inr ⟨h.symm, h2⟩)
  · exact Or.inr (Or.inl h)

instance : IsTrans (String × String) pairLeTuple := by
  constructor
  intro a b c hab hbc
  rcases hab with h1 | ⟨h1, h1v⟩ <;> rcases hbc with h2 | ⟨h2, h2v⟩
  · exact Or.inl (strLt_trans h1 h2)
  · exact Or.inl (h2 ▸ h1)
  · exact Or.inl (h1 ▸ h2)
  · exact Or.inr ⟨h1.trans h2, strLe_trans h1v h2v⟩

/-- Key-only comparison on string pairs. -/
def pairLeKey (a b : String × String) : Prop := strLe a.1 b.1

instance : DecidableRel pairLeKey := fun a b => by
  unfold pairLeKey strLe; infer_instance

instance : IsTotal (String × String) pairLeKey := by
  constructor; intro a b; exact strLe_total a.1 b.1

instance : IsTrans (String × String) pairLeKey := by
  constructor; intro a b c h1 h2; exact strLe_trans h1 h2

/-- `sorted(params.items())` — tuple comparison (BingX). -/
def sortPairsTuple (l : List (String × String)) : List (String × String) :=
  l.insertionSort pairLeTuple

/-- `sorted(params.items(), key=lambda x: x[0])` — key comparison
(Bitget / Bybit / Coinbase). -/
def sortPairsKey (l : List (String × String)) : List (String × String) :=
  l.insertionSort pairLeKey

/-! ## Shared data model (identical `dataclass`es in all four files) -/

/-- `TradingPair` dataclass. -/
structure TradingPair where
  symbol : String
deriving DecidableEq

/-- `OrderBookLevel` dataclass; `float` values carried as exact rationals. -/
structure OrderBookLevel where
  price : Rat
  quantity : Rat
deriving DecidableEq

/-- `OrderBook` dataclass. -/
structure OrderBook where
  symbol : String
  bids : List OrderBookLevel
  asks : List OrderBookLevel
  timestamp : Int
deriving DecidableEq

/-- The mutable per-client state: `self._session` (represented by an
identifier drawn from `sessionCounter`, so freshness is expressible;
`closedSessions` records identifiers of sessions that have been closed) and
`self._last_request_time`. -/
structure ClientState where
  session : Option Nat
  sessionCounter : Nat
  closedSessions : List Nat
  lastRequestTime : Rat
deriving DecidableEq

/-- State installed by `__init__`: no session, `_last_request_time = 0.0`. -/
def initialState : ClientState :=
  { session := none, sessionCounter := 0, closedSessions := [], lastRequestTime := 0 }

/-- `create_session`: `if not self._session: self._session = aiohttp.ClientSession()`
(a live session object is always truthy, so an existing session is kept). -/
def create_session (st : ClientState) : ClientState :=
  if st.session.isNone then
    { st with session := some st.sessionCounter, sessionCounter := st.sessionCounter + 1 }
  else st

/-- `close_session`: `if self._session: await self._session.close(); self._session = None`. -/
def close_session (st : ClientState) : ClientState :=
  match st.session with
  | some s => { st with session := none, closedSessions := s :: st.closedSessions }
  | none => st

/-- The outbound HTTP request handed to
`self._session.request(method, url, headers=headers, json=params)`.
`query` is the structured view of the parameters that were urlencoded into
`url` (empty for non-GET sends); `jsonBody` is the `json=` argument. -/
structure SentRequest where
  method : String
  url : String
  query : List (String × String)
  jsonBody : Option (List (String × String))
  headers : List (String × String)
  sessionUsed : Nat

/-- External inputs consumed by one `_make_request` call: the two
`time.time()` reads of the rate-limit block, the `int(time.time() * 1000)`
read used for stamping/signing, the same read repeated at response-parse
time (used only by the Coinbase order-book parser), and the transport
oracle (HTTP send + status check + JSON decode). -/
structure CallEnv (R : Type) where
  now1 : Rat
  now2 : Rat
  tsMillis : Int
  respTsMillis : Int
  respond : SentRequest → Except String R

/-- Everything one `_make_request` call produces: its value or exception,
the client state afterwards, the requests that went out on the wire, and
the canonical strings handed to the HMAC primitive (in order). -/
structure CallResult (R : Type) where
  result : Except String R
  state : ClientState
  requests : List SentRequest
  signedMessages : List String

/-- How long the rate-limit block sleeps:
`if time_since_last_request < self.rate_limit: await asyncio.sleep(self.rate_limit - time_since_last_request)`. -/
def rateLimitDelay (rateLimit last now1 : Rat) : Rat :=
  if now1 - last < rateLimit then rateLimit - (now1 - last) else 0

/-- The successive `self._last_request_time` values recorded by a sequence
of rate-limit blocks, one `(now1, now2)` pair of clock reads per block
(`now2` is the read after the conditional sleep, and is what gets
recorded). -/
def runRateLimiter (last : Rat) (reads : List (Rat × Rat)) : List Rat :=
  match reads with
  | [] => []
  | (_, n2) :: rest => n2 :: runRateLimiter n2 rest

/-- Physical clock assumptions for a sequence of rate-limit blocks: the
second read of each block is not earlier than the first, and
`asyncio.sleep(d)` suspends for at least `d`. -/
def Admissible (rl : Rat) : Rat → List (Rat × Rat) → Prop
  | _, [] => True
  | last, (n1, n2) :: rest =>
      n1 ≤ n2 ∧ n1 + rateLimitDelay rl last n1 ≤ n2 ∧ Admissible rl n2 rest

/-- Python `str.lower()` (ASCII range; the status sentinels are ASCII). -/
def pyLower (s : String) : String :=
  ⟨s.data.map fun c => if 65 ≤ c.toNat ∧ c.toNat ≤ 90 then Char.ofNat (c.toNat + 32) else c⟩

/-- Canonical string of the timestamp-prefixed signing family
(`Bitget/Bybit/Coinbase._generate_signature`): the millisecond timestamp,
then — if `params` is non-empty — the key-sorted `f"{key}{value}"` pieces
joined with no separator. -/
def timestampCanonical (ts : Int) (params : List (String × String)) : String :=
  toString ts ++
    (if params.isEmpty then "" else concatAll ((sortPairsKey params).map fun kv => kv.1 ++ kv.2))

example : sortPairsTuple [("b", "2"), ("a", "1")] = [("a", "1"), ("b", "2")] := by decide

example : pyQuotePlus "a b&c" = "a+b%26c" := by decide

example : urlencodeItems [("symbol", "BTC-USDT"), ("limit", "5")] =
    "symbol=BTC-USDT&limit=5" := by decide

/-! ## BingX client (`src/bot/services/api/bingx.py`) -/

/-- `BingXCredentials` dataclass. -/
structure BingXCredentials where
  api_key : String
  api_secret : String
  testnet : Bool := false

/-- Constructor arguments of `BingXClient` that the claims depend on
(defaults: `rate_limit = 0.1`, `max_concurrent_requests = 100`; the
semaphore bound plays no role in the claims under study). -/
structure BingXClient where
  credentials : Option BingXCredentials := none
  rate_limit : Rat := 1 / 10

def BingXClient.base_url (_ : BingXClient) : String := "https://open-api.bingx.com"

/-- Body of `BingXClient._generate_signature` once credentials are in hand:
HMAC-SHA256 of `urlencode(sorted(params.items()))` under the API secret. -/
def BingXClient.signature_core (cred : BingXCredentials) (hmacHex : String → String → String)
    (params : List (String × String)) : String :=
  hmacHex cred.api_secret (urlencodeItems (sortPairsTuple params))

/-- `BingXClient._generate_signature`: raises when credentials are absent. -/
def BingXClient.generate_signature (c : BingXClient) (hmacHex : String → String → String)
    (params : List (String × String)) : Except String String :=
  match c.credentials with
  | none => .error "API credentials required for authenticated requests"
  | some cred => .ok (BingXClient.signature_core cred hmacHex params)

/-- `BingXClient._make_request`.  Steps, in source order: rate-limit block
(records `now2` as `_last_request_time`), lazy session creation, default
`params = {}`, `params['timestamp'] = str(int(time.time() * 1000))`, then —
when credentials are present — signature over the params, the signature
appended to the params and the `X-BX-APIKEY` header attached; for GET the
params are urlencoded into the URL, otherwise sent as the JSON body. -/
def BingXClient.make_request {R : Type} (c : BingXClient) (hmacHex : String → String → String)
    (st : ClientState) (env : CallEnv R) (method endpoint : String)
    (params : Option (List (String × String))) : CallResult R :=
  let st1 : ClientState := { st with lastRequestTime := env.now2 }
  let st2 := if st1.session.isNone then create_session st1 else st1
  let sid := st2.session.getD 0
  let params1 := dictSet (params.getD []) "timestamp" (toString env.tsMillis)
  match c.credentials with
  | some cred =>
    let canonical := urlencodeItems (sortPairsTuple params1)
    let signature := hmacHex cred.api_secret canonical
    let params2 := dictSet params1 "signature" signature
    let headers := [("X-BX-APIKEY", cred.api_key)]
    let req : SentRequest :=
      if method = "GET" then
        { method := method, url := c.base_url ++ endpoint ++ "?" ++ urlencodeItems params2,
          query := params2, jsonBody := none, headers := headers, sessionUsed := sid }
      else
        { method := method, url := c.base_url ++ endpoint,
          query := [], jsonBody := some params2, headers := headers, sessionUsed := sid }
    { result := env.respond req, state := st2, requests := [req], signedMessages := [canonical] }
  | none =>
    let req : SentRequest :=
      if method = "GET" then
        { method := method, url := c.base_url ++ endpoint ++ "?" ++ urlencodeItems params1,
          query := params1, jsonBody := none, headers := [], sessionUsed := sid }
      else
        { method := method, url := c.base_url ++ endpoint,
          query := [], jsonBody := some params1, headers := [], sessionUsed := sid }
    { result := env.respond req, state := st2, requests := [req], signedMessages := [] }

/-- One element of `response['data']['symbols']` as read by
`BingXClient.get_trading_pairs`: `pair['symbol']` and `pair.get('status')`
(an integer status, absent key giving `none`). -/
structure BingXSymbolInfo where
  symbol : String
  status : Option Int

/-- `BingXClient.get_trading_pairs`: fetches the symbol listing and keeps
the pairs with `pair.get('status') == 1`, in response order. -/
def BingXClient.get_trading_pairs (c : BingXClient) (hmacHex : String → String → String)
    (st : ClientState) (env : CallEnv (List BingXSymbolInfo)) :
    Except String (List TradingPair) × ClientState × List SentRequest :=
  let r := c.make_request hmacHex st env "GET" "/openApi/spot/v1/common/symbols" none
  match r.result with
  | .error e => (.error e, r.state, r.requests)
  | .ok pairs =>
    (.ok (pairs.foldl
        (fun acc pair =>
          if pair.status = some 1 then acc ++ [{ symbol := pair.symbol }] else acc) []),
      r.state, r.requests)

/-- `response['data']` of a depth request: `bids`/`asks` rows (two-element
price/quantity arrays, carried pre-parsed as rational pairs) and the
server timestamp `ts`.  Also the shape of Bybit's `response['result']`,
whose JSON keys are `b`, `a`, `ts`. -/
structure DepthPayload where
  bids : List (Rat × Rat)
  asks : List (Rat × Rat)
  ts : Int

/-- `BingXClient.get_orderbook`: validates the depth against the enumerated
set, issues the GET, and maps each `bids`/`asks` row to an
`OrderBookLevel` (`price` from element 0, `quantity` from element 1). -/
def BingXClient.get_orderbook (c : BingXClient) (hmacHex : String → String → String)
    (st : ClientState) (env : CallEnv DepthPayload) (symbol : String) (limit : Int) :
    Except String OrderBook × ClientState × List SentRequest :=
  if limit ∉ ([5, 10, 20, 50, 100, 500, 1000] : List Int) then
    (.error "Limit must be one of: 5, 10, 20, 50, 100, 500, 1000", st, [])
  else
    let params := [("symbol", symbol), ("limit", toString limit)]
    let r := c.make_request hmacHex st env "GET" "/openApi/spot/v1/market/depth" (some params)
    match r.result with
    | .error e => (.error e, r.state, r.requests)
    | .ok data =>
      (.ok { symbol := symbol,
             bids := data.bids.map fun b => { price := b.1, quantity := b.2 },
             asks := data.asks.map fun a => { price := a.1, quantity := a.2 },
             timestamp := data.ts },
        r.state, r.requests)

/-- `BingXClient.get_all_orderbooks`.  Each pair's fetch
(`await self.get_orderbook(pair.symbol, limit)`, with `BingXAPIException`
caught and turned into `None`) is abstracted as `outcome`; the surviving
`(symbol, orderbook)` results are folded into a dict. -/
def BingXClient.get_all_orderbooks (outcome : TradingPair → Except String OrderBook)
    (trading_pairs : List TradingPair) : List (String × OrderBook) :=
  let results := trading_pairs.map fun pair => (pair.symbol, (outcome pair).toOption)
  results.foldl dictStep []

/-! ## Bitget client (`src/bot/services/api/bitget.py`) -/

/-- `BitgetCredentials` dataclass. -/
structure BitgetCredentials where
  api_key : String
  api_secret : String

/-- Constructor arguments of `BitgetClient` (defaults: `rate_limit = 0.05`,
`max_concurrent_requests = 20`). -/
structure BitgetClient where
  credentials : Option BitgetCredentials := none
  rate_limit : Rat := 1 / 20

def BitgetClient.base_url (_ : BitgetClient) : String := "https://api.bitget.com"

/-- Body of `BitgetClient._generate_signature` once credentials are in
hand: returns `(signature, timestamp)` where the signature is HMAC-SHA256
of the timestamp-prefixed canonical string.  The millisecond timestamp the
source reads with `time.time()` is the explicit `ts` argument. -/
def BitgetClient.signature_core (cred : BitgetCredentials) (hmacHex : String → String → String)
    (ts : Int) (params : List (String × String)) : String × String :=
  (hmacHex cred.api_secret (timestampCanonical ts params), toString ts)

/-- `BitgetClient._generate_signature`: raises when credentials are absent. -/
def BitgetClient.generate_signature (c : BitgetClient) (hmacHex : String → String → String)
    (ts : Int) (params : List (String × String)) : Except String (String × String) :=
  match c.credentials with
  | none => .error "API credentials required for authenticated requests"
  | some cred => .ok (BitgetClient.signature_core cred hmacHex ts params)

/-- `BitgetClient._make_request`.  Unlike BingX, nothing is appended to the
request parameters: when credentials are present the Signer is invoked on
`params or {}` and the key/signature/timestamp travel in the
`ACCESS-KEY` / `ACCESS-SIGN` / `ACCESS-TIMESTAMP` headers; the parameters
go into the URL query string only for a GET with truthy params
(`if method == "GET" and params:`), otherwise they are the JSON body. -/
def BitgetClient.make_request {R : Type} (c : BitgetClient) (hmacHex : String → String → String)
    (st : ClientState) (env : CallEnv R) (method endpoint : String)
    (params : Option (List (String × String))) : CallResult R :=
  let st1 : ClientState := { st with lastRequestTime := env.now2 }
  let st2 := if st1.session.isNone then create_session st1 else st1
  let sid := st2.session.getD 0
  let headers :=
    match c.credentials with
    | some cred =>
      let sigts := BitgetClient.signature_core cred hmacHex env.tsMillis (params.getD [])
      [("ACCESS-KEY", cred.api_key), ("ACCESS-SIGN", sigts.1), ("ACCESS-TIMESTAMP", sigts.2)]
    | none => []
  let signed :=
    match c.credentials with
    | some _ => [timestampCanonical env.tsMillis (params.getD [])]
    | none => []
  let req : SentRequest :=
    if method = "GET" ∧ pyTruthy params then
      { method := method,
        url := c.base_url ++ endpoint ++ "?" ++ urlencodeItems (params.getD []),
        query := params.getD [], jsonBody := none, headers := headers, sessionUsed := sid }
    else
      { method := method, url := c.base_url ++ endpoint,
        query := [], jsonBody := params, headers := headers, sessionUsed := sid }
  { result := env.respond req, state := st2, requests := [req], signedMessages := signed }

/-- One element of `response['data']` as read by
`BitgetClient.get_trading_pairs` (string status); also the shape of the
elements of Bybit's `response['result']['list']`. -/
structure StatusSymbolInfo where
  symbol : String
  status : String

/-- `BitgetClient.get_trading_pairs`: keeps pairs with
`pair['status'].lower() == "online"`, in response order. -/
def BitgetClient.get_trading_pairs (c : BitgetClient) (hmacHex : String → String → String)
    (st : ClientState) (env : CallEnv (List StatusSymbolInfo)) :
    Except String (List TradingPair) × ClientState × List SentRequest :=
  let r := c.make_request hmacHex st env "GET" "/api/v2/spot/public/symbols" none
  match r.result with
  | .error e => (.error e, r.state, r.requests)
  | .ok pairs =>
    (.ok (pairs.foldl
        (fun acc pair =>
          if pyLower pair.status = "online" then acc ++ [{ symbol := pair.symbol }] else acc) []),
      r.state, r.requests)

/-- `BitgetClient.get_orderbook`: depth must satisfy `0 < limit ≤ 150`. -/
def BitgetClient.get_orderbook (c : BitgetClient) (hmacHex : String → String → String)
    (st : ClientState) (env : CallEnv DepthPayload) (symbol : String) (limit : Int) :
    Except String OrderBook × ClientState × List SentRequest :=
  if limit ≤ 0 ∨ limit > 150 then
    (.error "Limit must be > 0 and <= 150", st, [])
  else
    let params := [("symbol", symbol), ("limit", toString limit)]
    let r := c.make_request hmacHex st env "GET" "/api/v2/spot/market/orderbook" (some params)
    match r.result with
    | .error e => (.error e, r.state, r.requests)
    | .ok data =>
      (.ok { symbol := symbol,
             bids := data.bids.map fun b => { price := b.1, quantity := b.2 },
             asks := data.asks.map fun a => { price := a.1, quantity := a.2 },
             timestamp := data.ts },
        r.state, r.requests)

/-- `BitgetClient.get_all_orderbooks` — same aggregation pattern as BingX. -/
def BitgetClient.get_all_orderbooks (outcome : TradingPair → Except String OrderBook)
    (trading_pairs : List TradingPair) : List (String × OrderBook) :=
  let results := trading_pairs.map fun pair => (pair.symbol, (outcome pair).toOption)
  results.foldl dictStep []

/-! ## Bybit client (`src/bot/services/api/bybit.py`) -/

/-- `BybitCredentials` dataclass. -/
structure BybitCredentials where
  api_key : String
  api_secret : String
  testnet : Bool := false

/-- Constructor arguments of `BybitClient` (defaults: `rate_limit = 0.0083`,
`max_concurrent_requests = 600`). -/
structure BybitClient where
  credentials : Option BybitCredentials := none
  rate_limit : Rat := 83 / 10000

/-- Bybit's base URL depends on the testnet flag of the credentials. -/
def BybitClient.base_url (c : BybitClient) : String :=
  match c.credentials with
  | some cred => if cred.testnet then "https://api-testnet.bybit.com/v5" else "https://api.bybit.com/v5"
  | none => "https://api.bybit.com/v5"

/-- Body of `BybitClient._generate_signature` (same formula as Bitget). -/
def BybitClient.signature_core (cred : BybitCredentials) (hmacHex : String → String → String)
    (ts : Int) (params : List (String × String)) : String × String :=
  (hmacHex cred.api_secret (timestampCanonical ts params), toString ts)

/-- `BybitClient._generate_signature`: raises when credentials are absent. -/
def BybitClient.generate_signature (c : BybitClient) (hmacHex : String → String → String)
    (ts : Int) (params : List (String × String)) : Except String (String × String) :=
  match c.credentials with
  | none => .error "API credentials required for authenticated requests"
  | some cred => .ok (BybitClient.signature_core cred hmacHex ts params)

/-- `BybitClient._make_request` — same dispatch as Bitget with the
`X-BAPI-API-KEY` / `X-BAPI-SIGN` / `X-BAPI-TIMESTAMP` header names (the
additional body-level `retCode` check lives in the transport oracle). -/
def BybitClient.make_request {R : Type} (c : BybitClient) (hmacHex : String → String → String)
    (st : ClientState) (env : CallEnv R) (method endpoint : String)
    (params : Option (List (String × String))) : CallResult R :=
  let st1 : ClientState := { st with lastRequestTime := env.now2 }
  let st2 := if st1.session.isNone then create_session st1 else st1
  let sid := st2.session.getD 0
  let headers :=
    match c.credentials with
    | some cred =>
      let sigts := BybitClient.signature_core cred hmacHex env.tsMillis (params.getD [])
      [("X-BAPI-API-KEY", cred.api_key), ("X-BAPI-SIGN", sigts.1), ("X-BAPI-TIMESTAMP", sigts.2)]
    | none => []
  let signed :=
    match c.credentials with
    | some _ => [timestampCanonical env.tsMillis (params.getD [])]
    | none => []
  let req : SentRequest :=
    if method = "GET" ∧ pyTruthy params then
      { method := method,
        url := c.base_url ++ endpoint ++ "?" ++ urlencodeItems (params.getD []),
        query := params.getD [], jsonBody := none, headers := headers, sessionUsed := sid }
    else
      { method := method, url := c.base_url ++ endpoint,
        query := [], jsonBody := params, headers := headers, sessionUsed := sid }
  { result := env.respond req, state := st2, requests := [req], signedMessages := signed }

/-- `BybitClient.get_trading_pairs`: keeps pairs with
`pair['status'].lower() == "trading"`, in response order
(from `response['result']['list']`). -/
def BybitClient.get_trading_pairs (c : BybitClient) (hmacHex : String → String → String)
    (st : ClientState) (env : CallEnv (List StatusSymbolInfo)) :
    Except String (List TradingPair) × ClientState × List SentRequest :=
  let r := c.make_request hmacHex st env "GET" "/market/instruments-info"
    (some [("category", "spot")])
  match r.result with
  | .error e => (.error e, r.state, r.requests)
  | .ok pairs =>
    (.ok (pairs.foldl
        (fun acc pair =>
          if pyLower pair.status = "trading" then acc ++ [{ symbol := pair.symbol }] else acc) []),
      r.state, r.requests)

/-- `BybitClient.get_orderbook`: depth must be one of 1, 25, 50, 100, 200;
rows come from `response['result']['b']` / `['a']`. -/
def BybitClient.get_orderbook (c : BybitClient) (hmacHex : String → String → String)
    (st : ClientState) (env : CallEnv DepthPayload) (symbol : String) (limit : Int) :
    Except String OrderBook × ClientState × List SentRequest :=
  if limit ∉ ([1, 25, 50, 100, 200] : List Int) then
    (.error "Limit must be one of: 1, 25, 50, 100, 200", st, [])
  else
    let params := [("category", "spot"), ("symbol", symbol), ("limit", toString limit)]
    let r := c.make_request hmacHex st env "GET" "/market/orderbook" (some params)
    match r.result with
    | .error e => (.error e, r.state, r.requests)
    | .ok data =>
      (.ok { symbol := symbol,
             bids := data.bids.map fun b => { price := b.1, quantity := b.2 },
             asks := data.asks.map fun a => { price := a.1, quantity := a.2 },
             timestamp := data.ts },
        r.state, r.requests)

/-- `BybitClient.get_all_orderbooks` — same aggregation pattern. -/
def BybitClient.get_all_orderbooks (outcome : TradingPair → Except String OrderBook)
    (trading_pairs : List TradingPair) : List (String × OrderBook) :=
  let results := trading_pairs.map fun pair => (pair.symbol, (outcome pair).toOption)
  results.foldl dictStep []

/-! ## Coinbase client (`src/bot/services/api/coinbase.py`) -/

/-- `CoinBaseCredentials` dataclass. -/
structure CoinBaseCredentials where
  api_key : String
  api_secret : String
  api_passphrase : String

/-- Constructor arguments of `CoinBaseClient` (defaults: `rate_limit = 0.1`,
`max_concurrent_requests = 10`). -/
structure CoinBaseClient where
  credentials : Option CoinBaseCredentials := none
  rate_limit : Rat := 1 / 10

def CoinBaseClient.base_url (_ : CoinBaseClient) : String := "https://api.exchange.coinbase.com"

/-- Body of `CoinBaseClient._generate_signature` (same formula as Bitget). -/
def CoinBaseClient.signature_core (cred : CoinBaseCredentials) (hmacHex : String → String → String)
    (ts : Int) (params : List (String × String)) : String × String :=
  (hmacHex cred.api_secret (timestampCanonical ts params), toString ts)

/-- `CoinBaseClient._generate_signature`: raises when credentials are absent. -/
def CoinBaseClient.generate_signature (c : CoinBaseClient) (hmacHex : String → String → String)
    (ts : Int) (params : List (String × String)) : Except String (String × String) :=
  match c.credentials with
  | none => .error "API credentials required for authenticated requests"
  | some cred => .ok (CoinBaseClient.signature_core cred hmacHex ts params)

/-- `CoinBaseClient._make_request` — same dispatch as Bitget with the
`CB-ACCESS-KEY` / `CB-ACCESS-SIGN` / `X-BM-TIMESTAMP` / `CB-ACCESS-PASSPHRASE`
headers (the timestamp header name in the source really is `X-BM-TIMESTAMP`). -/
def CoinBaseClient.make_request {R : Type} (c : CoinBaseClient) (hmacHex : String → String → String)
    (st : ClientState) (env : CallEnv R) (method endpoint : String)
    (params : Option (List (String × String))) : CallResult R :=
  let st1 : ClientState := { st with lastRequestTime := env.now2 }
  let st2 := if st1.session.isNone then create_session st1 else st1
  let sid := st2.session.getD 0
  let headers :=
    match c.credentials with
    | some cred =>
      let sigts := CoinBaseClient.signature_core cred hmacHex env.tsMillis (params.getD [])
      [("CB-ACCESS-KEY", cred.api_key), ("CB-ACCESS-SIGN", sigts.1),
        ("X-BM-TIMESTAMP", sigts.2), ("CB-ACCESS-PASSPHRASE", cred.api_passphrase)]
    | none => []
  let signed :=
    match c.credentials with
    | some _ => [timestampCanonical env.tsMillis (params.getD [])]
    | none => []
  let req : SentRequest :=
    if method = "GET" ∧ pyTruthy params then
      { method := method,
        url := c.base_url ++ endpoint ++ "?" ++ urlencodeItems (params.getD []),
        query := params.getD [], jsonBody := none, headers := headers, sessionUsed := sid }
    else
      { method := method, url := c.base_url ++ endpoint,
        query := [], jsonBody := params, headers := headers, sessionUsed := sid }
  { result := env.respond req, state := st2, requests := [req], signedMessages := signed }

/-- One element of the `/products` response: `pair['id']`, `pair['status']`. -/
structure ProductInfo where
  id : String
  status : String

/-- `CoinBaseClient.get_trading_pairs`: keeps products with
`pair["status"].lower() == 'online'`, symbol taken from `pair["id"]`. -/
def CoinBaseClient.get_trading_pairs (c : CoinBaseClient) (hmacHex : String → String → String)
    (st : ClientState) (env : CallEnv (List ProductInfo)) :
    Except String (List TradingPair) × ClientState × List SentRequest :=
  let r := c.make_request hmacHex st env "GET" "/products" none
  match r.result with
  | .error e => (.error e, r.state, r.requests)
  | .ok pairs =>
    (.ok (pairs.foldl
        (fun acc pair =>
          if pyLower pair.status = "online" then acc ++ [{ symbol := pair.id }] else acc) []),
      r.state, r.requests)

/-- The `/products/{symbol}/book?level=2` response: `bids`/`asks` rows, no
server timestamp. -/
structure BookPayload where
  bids : List (Rat × Rat)
  asks : List (Rat × Rat)

/-- `CoinBaseClient.get_orderbook`: depth must satisfy `0 < limit ≤ 50`;
always requests `level = 2`, truncates each side with `[:limit]`, and
stamps the book with local time at response-parse time. -/
def CoinBaseClient.get_orderbook (c : CoinBaseClient) (hmacHex : String → String → String)
    (st : ClientState) (env : CallEnv BookPayload) (symbol : String) (limit : Int) :
    Except String OrderBook × ClientState × List SentRequest :=
  if limit ≤ 0 ∨ limit > 50 then
    (.error "Limit must be > 0 and <= 50", st, [])
  else
    let params := [("level", toString (2 : Int))]
    let r := c.make_request hmacHex st env "GET" ("/products/" ++ symbol ++ "/book") (some params)
    match r.result with
    | .error e => (.error e, r.state, r.requests)
    | .ok data =>
      (.ok { symbol := symbol,
             bids := (data.bids.take limit.toNat).map fun b => { price := b.1, quantity := b.2 },
             asks := (data.asks.take limit.toNat).map fun a => { price := a.1, quantity := a.2 },
             timestamp := env.respTsMillis },
        r.state, r.requests)

/-- `CoinBaseClient.get_all_orderbooks` — same aggregation pattern. -/
def CoinBaseClient.get_all_orderbooks (outcome : TradingPair → Except String OrderBook)
    (trading_pairs : List TradingPair) : List (String × OrderBook) :=
  let results := trading_pairs.map fun pair => (pair.symbol, (outcome pair).toOption)
  results.foldl dictStep []

/-! ## Facts about dict building -/

lemma dictSet_of_not_mem {α : Type} {d : List (String × α)} {k : String} (v : α)
    (h : k ∉ d.map Prod.fst) : dictSet d k v = d ++ [(k, v)] := by
  unfold dictSet
  rw [if_neg]
  simpa using h

/-- Folding `(symbol, result?)` pairs into a dict keeps exactly the
successful entries, in order, provided no key repeats. -/
lemma aggregate_core {β : Type} :
    ∀ (l : List (String × Option β)) (acc : List (String × β)),
      (acc.map Prod.fst ++ l.map Prod.fst).Nodup →
      l.foldl dictStep acc
        = acc ++ l.filterMap (fun sr => sr.2.map fun v => (sr.1, v)) := by
  intro l
  induction l with
  | nil => intro acc _; simp
  | cons hd tl ih =>
    intro acc hnd
    obtain ⟨k, ob⟩ := hd
    cases ob with
    | none =>
      simp only [List.foldl_cons, List.filterMap_cons, List.map_cons, dictStep] at hnd ⊢
      apply ih
      refine List.Nodup.sublist ?_ hnd
      exact List.Sublist.append_left (List.sublist_cons_self _ _) _
    | some v =>
      have hk : k ∉ acc.map Prod.fst := by
        rw [List.map_cons, List.nodup_append] at hnd
        intro hmem
        exact hnd.2.2 hmem (List.mem_cons_self _ _)
      simp only [List.foldl_cons, List.filterMap_cons, List.map_cons, dictStep] at hnd ⊢
      rw [dictSet_of_not_mem v hk, ih (acc ++ [(k, v)]) (by simpa using hnd)]
      simp

lemma filterMap_length_of_all_some {α β : Type} (f : α → Option β) :
    ∀ (l : List α), (∀ a, a ∈ l → (f a).isSome) → (l.filterMap f).length = l.length := by
  intro l
  induction l with
  | nil => intro _; simp
  | cons a tl ih =>
    intro h
    have ha := h a (List.mem_cons_self _ _)
    obtain ⟨b, hb⟩ := Option.isSome_iff_exists.mp ha
    simp only [List.filterMap_cons, hb, List.length_cons]
    rw [ih fun x hx => h x (List.mem_cons_of_mem _ hx)]

/-- The aggregation underlying every `get_all_orderbooks`, as a filter. -/
lemma get_all_orderbooks_eq_filterMap
    (outcome : TradingPair → Except String OrderBook) (pairs : List TradingPair)
    (hnd : (pairs.map TradingPair.symbol).Nodup) :
    BingXClient.get_all_orderbooks outcome pairs
      = pairs.filterMap fun p => ((outcome p).toOption).map fun ob => (p.symbol, ob) := by
  unfold BingXClient.get_all_orderbooks
  dsimp only
  rw [aggregate_core]
  · simp only [List.nil_append, List.filterMap_map]
    rfl
  · simpa [Function.comp] using hnd

lemma except_toOption_eq_some {ε α : Type} {x : Except ε α} {a : α} :
    x.toOption = some a ↔ x = .ok a := by
  cases x <;> simp [Except.toOption]

/-- **C1.**  For every list of trading pairs with distinct symbols, the
mapping returned by `get_all_orderbooks` has exactly one entry per pair
whose fetch succeeded and omits every pair whose fetch raised the API
exception; with exactly one failure among N pairs it has N-1 entries and
omits the failed symbol; if every fetch fails it is empty rather than an
exception.  The four clients' aggregators compute the same function of the
per-pair outcomes. -/
theorem c1_aggregator_resilience
    (outcome : TradingPair → Except String OrderBook) (pairs : List TradingPair)
    (hnd : (pairs.map TradingPair.symbol).Nodup) :
    (∀ s ob, (s, ob) ∈ BingXClient.get_all_orderbooks outcome pairs ↔
        ∃ p, p ∈ pairs ∧ p.symbol = s ∧ outcome p = .ok ob)
    ∧ (∀ A b B e, pairs = A ++ b :: B → outcome b = .error e →
        (∀ q, q ∈ A ++ B → ∃ ob, outcome q = .ok ob) →
        (BingXClient.get_all_orderbooks outcome pairs).length = pairs.length - 1
          ∧ b.symbol ∉ keysOf (BingXClient.get_all_orderbooks outcome pairs))
    ∧ ((∀ p, p ∈ pairs → ∃ e, outcome p = .error e) →
        BingXClient.get_all_orderbooks outcome pairs = [])
    ∧ BitgetClient.get_all_orderbooks outcome pairs = BingXClient.get_all_orderbooks outcome pairs
    ∧ BybitClient.get_all_orderbooks outcome pairs = BingXClient.get_all_orderbooks outcome pairs
    ∧ CoinBaseClient.get_all_orderbooks outcome pairs
        = BingXClient.get_all_orderbooks outcome pairs := by
  have hEq := get_all_orderbooks_eq_filterMap outcome pairs hnd
  refine ⟨?_, ?_, ?_, rfl, rfl, rfl⟩
  · intro s ob
    rw [hEq, List.mem_filterMap]
    constructor
    · rintro ⟨p, hp, hsome⟩
      rw [Option.map_eq_some'] at hsome
      obtain ⟨ob', hob', heq⟩ := hsome
      obtain ⟨h1, h2⟩ := Prod.mk.injEq .. ▸ heq
      exact ⟨p, hp, h1, h2 ▸ except_toOption_eq_some.mp hob'⟩
    · rintro ⟨p, hp, rfl, hok⟩
      exact ⟨p, hp, by simp [hok, Except.toOption]⟩
  · intro A b B e hsplit hfail hsucc
    subst hsplit
    have hnotmem : b.symbol ∉ A.map TradingPair.symbol
        ∧ b.symbol ∉ B.map TradingPair.symbol := by
      rw [List.map_append, List.map_cons, List.nodup_append] at hnd
      refine ⟨fun h => hnd.2.2 h (List.mem_cons_self _ _), ?_⟩
      exact (List.nodup_cons.mp hnd.2.1).1
    constructor
    · rw [hEq, List.filterMap_append, List.filterMap_cons]
      have hbnone : ((outcome b).toOption).map (fun ob => (b.symbol, ob)) = none := by
        simp [hfail, Except.toOption]
      rw [hbnone]
      rw [List.length_append,
        filterMap_length_of_all_some _ A (fun q hq => by
          obtain ⟨ob, hob⟩ := hsucc q (List.mem_append_left _ hq)
          simp [hob, Except.toOption]),
        filterMap_length_of_all_some _ B (fun q hq => by
          obtain ⟨ob, hob⟩ := hsucc q (List.mem_append_right _ hq)
          simp [hob, Except.toOption])]
      simp [Nat.add_comm]
    · rw [hEq]
      unfold keysOf
      intro hmem
      rw [List.mem_map] at hmem
      obtain ⟨sv, hmem', hs⟩ := hmem
      rw [List.mem_filterMap] at hmem'
      obtain ⟨p, hp, hsome⟩ := hmem'
      rw [Option.map_eq_some'] at hsome
      obtain ⟨ob', hob', heq⟩ := hsome
      have hps : p.symbol = b.symbol := by
        have := congrArg Prod.fst heq
        simpa [hs] using this
      rcases List.mem_append.mp hp with hpA | hpC
      · exact hnotmem.1 (hps ▸ List.mem_map_of_mem TradingPair.symbol hpA)
      · rcases List.mem_cons.mp hpC with rfl | hpB
        · rw [except_toOption_eq_some] at hob'
          rw [hfail] at hob'
          cases hob'
        · exact hnotmem.2 (hps ▸ List.mem_map_of_mem TradingPair.symbol hpB)
  · intro hall
    rw [hEq]
    rw [List.filterMap_eq_nil]
    intro p hp
    obtain ⟨e, he⟩ := hall p hp
    simp [he, Except.toOption]

/-- Witness for C1: three pairs, the middle fetch fails, the result keeps
the other two and omits symbol B. -/
theorem c1_aggregator_resilience_witness :
    (BingXClient.get_all_orderbooks
        (fun p => if p.symbol = "B" then .error "API Error: 418" else .ok ⟨p.symbol, [], [], 7⟩)
        [⟨"A"⟩, ⟨"B"⟩, ⟨"C"⟩]).length = 2
      ∧ "B" ∉ keysOf (BingXClient.get_all_orderbooks
        (fun p => if p.symbol = "B" then .error "API Error: 418" else .ok ⟨p.symbol, [], [], 7⟩)
        [⟨"A"⟩, ⟨"B"⟩, ⟨"C"⟩]) := by
  have h := (c1_aggregator_resilience
      (fun p => if p.symbol = "B" then .error "API Error: 418" else .ok ⟨p.symbol, [], [], 7⟩)
      [⟨"A"⟩, ⟨"B"⟩, ⟨"C"⟩] (by decide)).2.1
      [⟨"A"⟩] ⟨"B"⟩ [⟨"C"⟩] "API Error: 418" rfl rfl
      (by
        intro q hq
        simp only [List.cons_append, List.nil_append, List.mem_cons,
          List.not_mem_nil, or_false] at hq
        rcases hq with rfl | rfl
        · exact ⟨_, rfl⟩
        · exact ⟨_, rfl⟩)
  exact ⟨h.1, h.2⟩

/-! ## C2 — depth validation happens before any request -/

lemma BingXClient.bingx_make_request_one_request {R : Type} (c : BingXClient)
    (hmacHex : String → String → String) (st : ClientState) (env : CallEnv R)
    (method endpoint : String) (params : Option (List (String × String))) :
    (BingXClient.make_request c hmacHex st env method endpoint params).requests.length = 1 := by
  unfold BingXClient.make_request
  cases c.credentials <;> dsimp only <;> split <;> rfl

lemma BitgetClient.bitget_make_request_one_request {R : Type} (c : BitgetClient)
    (hmacHex : String → String → String) (st : ClientState) (env : CallEnv R)
    (method endpoint : String) (params : Option (List (String × String))) :
    (BitgetClient.make_request c hmacHex st env method endpoint params).requests.length = 1 := by
  unfold BitgetClient.make_request
  dsimp only
  split <;> rfl

lemma BybitClient.bybit_make_request_one_request {R : Type} (c : BybitClient)
    (hmacHex : String → String → String) (st : ClientState) (env : CallEnv R)
    (method endpoint : String) (params : Option (List (String × String))) :
    (BybitClient.make_request c hmacHex st env method endpoint params).requests.length = 1 := by
  unfold BybitClient.make_request
  dsimp only
  split <;> rfl

lemma CoinBaseClient.coinbase_make_request_one_request {R : Type} (c : CoinBaseClient)
    (hmacHex : String → String → String) (st : ClientState) (env : CallEnv R)
    (method endpoint : String) (params : Option (List (String × String))) :
    (CoinBaseClient.make_request c hmacHex st env method endpoint params).requests.length = 1 := by
  unfold CoinBaseClient.make_request
  dsimp only
  split <;> rfl

/-- **C2.**  For every depth outside the exchange's allowed set,
`get_orderbook` returns the exchange's API exception with the client state
untouched and no request issued; for every depth in the allowed set the
validation passes and exactly one request goes out on the wire. -/
theorem c2_depth_validated_before_request
    (hmacHex : String → String → String) (st : ClientState) (symbol : String) (limit : Int) :
    (∀ (c : BingXClient) (env : CallEnv DepthPayload),
        limit ∉ ([5, 10, 20, 50, 100, 500, 1000] : List Int) →
        c.get_orderbook hmacHex st env symbol limit
          = (.error "Limit must be one of: 5, 10, 20, 50, 100, 500, 1000", st, []))
    ∧ (∀ (c : BingXClient) (env : CallEnv DepthPayload),
        limit ∈ ([5, 10, 20, 50, 100, 500, 1000] : List Int) →
        (c.get_orderbook hmacHex st env symbol limit).2.2.length = 1)
    ∧ (∀ (c : BitgetClient) (env : CallEnv DepthPayload),
        limit ≤ 0 ∨ limit > 150 →
        c.get_orderbook hmacHex st env symbol limit
          = (.error "Limit must be > 0 and <= 150", st, []))
    ∧ (∀ (c : BitgetClient) (env : CallEnv DepthPayload),
        0 < limit → limit ≤ 150 →
        (c.get_orderbook hmacHex st env symbol limit).2.2.length = 1)
    ∧ (∀ (c : BybitClient) (env : CallEnv DepthPayload),
        limit ∉ ([1, 25, 50, 100, 200] : List Int) →
        c.get_orderbook hmacHex st env symbol limit
          = (.error "Limit must be one of: 1, 25, 50, 100, 200", st, []))
    ∧ (∀ (c : BybitClient) (env : CallEnv DepthPayload),
        limit ∈ ([1, 25, 50, 100, 200] : List Int) →
        (c.get_orderbook hmacHex st env symbol limit).2.2.length = 1)
    ∧ (∀ (c : CoinBaseClient) (env : CallEnv BookPayload),
        limit ≤ 0 ∨ limit > 50 →
        c.get_orderbook hmacHex st env symbol limit
          = (.error "Limit must be > 0 and <= 50", st, []))
    ∧ (∀ (c : CoinBaseClient) (env : CallEnv BookPayload),
        0 < limit → limit ≤ 50 →
        (c.get_orderbook hmacHex st env symbol limit).2.2.length = 1) := by
  refine ⟨?_, ?_, ?_, ?_, ?_, ?_, ?_, ?_⟩
  · intro c env h
    unfold BingXClient.get_orderbook
    rw [if_pos h]
  · intro c env h
    unfold BingXClient.get_orderbook
    rw [if_neg (not_not_intro h)]
    dsimp only
    split <;> exact BingXClient.bingx_make_request_one_request ..
  · intro c env h
    unfold BitgetClient.get_orderbook
    rw [if_pos h]
  · intro c env h1 h2
    unfold BitgetClient.get_orderbook
    rw [if_neg (by omega)]
    dsimp only
    split <;> exact BitgetClient.bitget_make_request_one_request ..
  · intro c env h
    unfold BybitClient.get_orderbook
    rw [if_pos h]
  · intro c env h
    unfold BybitClient.get_orderbook
    rw [if_neg (not_not_intro h)]
    dsimp only
    split <;> exact BybitClient.bybit_make_request_one_request ..
  · intro c env h
    unfold CoinBaseClient.get_orderbook
    rw [if_pos h]
  · intro c env h1 h2
    unfold CoinBaseClient.get_orderbook
    rw [if_neg (by omega)]
    dsimp only
    split <;> exact CoinBaseClient.coinbase_make_request_one_request ..

/-- Witness for C2: a concrete environment, an invalid and a valid depth
for each client. -/
theorem c2_depth_validated_before_request_witness :
    ((({} : BingXClient).get_orderbook (fun _ m => m) initialState
        ⟨0, 0, 0, 0, fun _ => .error "down"⟩ "BTCUSDT" 7)
      = (.error "Limit must be one of: 5, 10, 20, 50, 100, 500, 1000", initialState, []))
    ∧ (({} : BingXClient).get_orderbook (fun _ m => m) initialState
        ⟨0, 0, 0, 0, fun _ => .error "down"⟩ "BTCUSDT" 5).2.2.length = 1
    ∧ (({} : BitgetClient).get_orderbook (fun _ m => m) initialState
        ⟨0, 0, 0, 0, fun _ => .error "down"⟩ "BTCUSDT" 151
      = (.error "Limit must be > 0 and <= 150", initialState, []))
    ∧ (({} : BitgetClient).get_orderbook (fun _ m => m) initialState
        ⟨0, 0, 0, 0, fun _ => .error "down"⟩ "BTCUSDT" 150).2.2.length = 1
    ∧ (({} : BybitClient).get_orderbook (fun _ m => m) initialState
        ⟨0, 0, 0, 0, fun _ => .error "down"⟩ "BTCUSDT" 2
      = (.error "Limit must be one of: 1, 25, 50, 100, 200", initialState, []))
    ∧ (({} : BybitClient).get_orderbook (fun _ m => m) initialState
        ⟨0, 0, 0, 0, fun _ => .error "down"⟩ "BTCUSDT" 25).2.2.length = 1
    ∧ (({} : CoinBaseClient).get_orderbook (fun _ m => m) initialState
        ⟨0, 0, 0, 0, fun _ => .error "down"⟩ "BTC-USD" 0
      = (.error "Limit must be > 0 and <= 50", initialState, []))
    ∧ (({} : CoinBaseClient).get_orderbook (fun _ m => m) initialState
        ⟨0, 0, 0, 0, fun _ => .error "down"⟩ "BTC-USD" 50).2.2.length = 1 := by
  have h := c2_depth_validated_before_request (fun _ m => m) initialState "BTCUSDT" 7
  have h5 := c2_depth_validated_before_request (fun _ m => m) initialState "BTCUSDT" 5
  have h151 := c2_depth_validated_before_request (fun _ m => m) initialState "BTCUSDT" 151
  have h150 := c2_depth_validated_before_request (fun _ m => m) initialState "BTCUSDT" 150
  have h2b := c2_depth_validated_before_request (fun _ m => m) initialState "BTCUSDT" 2
  have h25 := c2_depth_validated_before_request (fun _ m => m) initialState "BTCUSDT" 25
  have h0 := c2_depth_validated_before_request (fun _ m => m) initialState "BTC-USD" 0
  have h50 := c2_depth_validated_before_request (fun _ m => m) initialState "BTC-USD" 50
  refine ⟨h.1 _ _ (by decide), h5.2.1 _ _ (by decide),
    h151.2.2.1 _ _ (by decide), h150.2.2.2.1 _ _ (by decide) (by decide),
    h2b.2.2.2.2.1 _ _ (by decide), h25.2.2.2.2.2.1 _ _ (by decide),
    h0.2.2.2.2.2.2.1 _ _ (by decide), h50.2.2.2.2.2.2.2 _ _ (by decide) (by decide)⟩

/-! ## C7 — trading-pair status filtering -/

/-- The `for ... if ...: append` loop of every `get_trading_pairs` is a
filter-then-map, keeping response order. -/
lemma foldl_append_filter {α β : Type} (f : α → β) (q : α → Prop) [DecidablePred q] :
    ∀ (l : List α) (acc : List β),
      l.foldl (fun acc a => if q a then acc ++ [f a] else acc) acc
        = acc ++ (l.filter fun a => decide (q a)).map f := by
  intro l
  induction l with
  | nil => intro acc; simp
  | cons a tl ih =>
    intro acc
    by_cases hq : q a
    · simp [List.foldl_cons, if_pos hq, List.filter_cons, decide_eq_true hq, ih]
    · simp [List.foldl_cons, if_neg hq, List.filter_cons, decide_eq_false hq, ih]

lemma BingXClient.bingx_make_request_result_const {R : Type} (c : BingXClient)
    (hmacHex : String → String → String) (st : ClientState) (env : CallEnv R)
    (method endpoint : String) (params : Option (List (String × String)))
    (x : Except String R) (hx : ∀ req, env.respond req = x) :
    (BingXClient.make_request c hmacHex st env method endpoint params).result = x := by
  unfold BingXClient.make_request
  cases c.credentials <;> dsimp only <;> split <;> apply hx

lemma BitgetClient.bitget_make_request_result_const {R : Type} (c : BitgetClient)
    (hmacHex : String → String → String) (st : ClientState) (env : CallEnv R)
    (method endpoint : String) (params : Option (List (String × String)))
    (x : Except String R) (hx : ∀ req, env.respond req = x) :
    (BitgetClient.make_request c hmacHex st env method endpoint params).result = x := by
  unfold BitgetClient.make_request
  dsimp only
  split <;> apply hx

lemma BybitClient.bybit_make_request_result_const {R : Type} (c : BybitClient)
    (hmacHex : String → String → String) (st : ClientState) (env : CallEnv R)
    (method endpoint : String) (params : Option (List (String × String)))
    (x : Except String R) (hx : ∀ req, env.respond req = x) :
    (BybitClient.make_request c hmacHex st env method endpoint params).result = x := by
  unfold BybitClient.make_request
  dsimp only
  split <;> apply hx

lemma CoinBaseClient.coinbase_make_request_result_const {R : Type} (c : CoinBaseClient)
    (hmacHex : String → String → String) (st : ClientState) (env : CallEnv R)
    (method endpoint : String) (params : Option (List (String × String)))
    (x : Except String R) (hx : ∀ req, env.respond req = x) :
    (CoinBaseClient.make_request c hmacHex st env method endpoint params).result = x := by
  unfold CoinBaseClient.make_request
  dsimp only
  split <;> apply hx

/-- **C7.**  On every listing response, `get_trading_pairs` returns exactly
the pairs whose status equals the exchange's active sentinel — BingX the
integer 1, Bitget and Coinbase the case-insensitive string "online", Bybit
the case-insensitive "trading" — in response order, excluding all others. -/
theorem c7_trading_pairs_active_filter
    (hmacHex : String → String → String) (st : ClientState) :
    (∀ (c : BingXClient) (env : CallEnv (List BingXSymbolInfo)) entries,
        (∀ req, env.respond req = .ok entries) →
        (c.get_trading_pairs hmacHex st env).1
          = .ok (((entries.filter fun p => decide (p.status = some 1)).map
              fun p => ({ symbol := p.symbol } : TradingPair))))
    ∧ (∀ (c : BitgetClient) (env : CallEnv (List StatusSymbolInfo)) entries,
        (∀ req, env.respond req = .ok entries) →
        (c.get_trading_pairs hmacHex st env).1
          = .ok (((entries.filter fun p => decide (pyLower p.status = "online")).map
              fun p => ({ symbol := p.symbol } : TradingPair))))
    ∧ (∀ (c : BybitClient) (env : CallEnv (List StatusSymbolInfo)) entries,
        (∀ req, env.respond req = .ok entries) →
        (c.get_trading_pairs hmacHex st env).1
          = .ok (((entries.filter fun p => decide (pyLower p.status = "trading")).map
              fun p => ({ symbol := p.symbol } : TradingPair))))
    ∧ (∀ (c : CoinBaseClient) (env : CallEnv (List ProductInfo)) entries,
        (∀ req, env.respond req = .ok entries) →
        (c.get_trading_pairs hmacHex st env).1
          = .ok (((entries.filter fun p => decide (pyLower p.status = "online")).map
              fun p => ({ symbol := p.id } : TradingPair)))) := by
  refine ⟨?_, ?_, ?_, ?_⟩
  · intro c env entries henv
    unfold BingXClient.get_trading_pairs
    dsimp only
    rw [BingXClient.bingx_make_request_result_const c hmacHex st env _ _ none _ henv]
    dsimp only
    rw [foldl_append_filter (fun p : BingXSymbolInfo => ({ symbol := p.symbol } : TradingPair))
      (fun p => p.status = some 1) entries []]
    rfl
  · intro c env entries henv
    unfold BitgetClient.get_trading_pairs
    dsimp only
    rw [BitgetClient.bitget_make_request_result_const c hmacHex st env _ _ none _ henv]
    dsimp only
    rw [foldl_append_filter (fun p : StatusSymbolInfo => ({ symbol := p.symbol } : TradingPair))
      (fun p => pyLower p.status = "online") entries []]
    rfl
  · intro c env entries henv
    unfold BybitClient.get_trading_pairs
    dsimp only
    rw [BybitClient.bybit_make_request_result_const c hmacHex st env _ _ _ _ henv]
    dsimp only
    rw [foldl_append_filter (fun p : StatusSymbolInfo => ({ symbol := p.symbol } : TradingPair))
      (fun p => pyLower p.status = "trading") entries []]
    rfl
  · intro c env entries henv
    unfold CoinBaseClient.get_trading_pairs
    dsimp only
    rw [CoinBaseClient.coinbase_make_request_result_const c hmacHex st env _ _ none _ henv]
    dsimp only
    rw [foldl_append_filter (fun p : ProductInfo => ({ symbol := p.id } : TradingPair))
      (fun p => pyLower p.status = "online") entries []]
    rfl

/-- Witness for C7: a BingX listing keeps status 1 and drops status 0 and
missing status; a Bitget listing keeps "ONLINE" case-insensitively. -/
theorem c7_trading_pairs_active_filter_witness :
    (({} : BingXClient).get_trading_pairs (fun _ m => m) initialState
        ⟨0, 0, 0, 0, fun _ => .ok [⟨"AAA", some 1⟩, ⟨"BBB", some 0⟩, ⟨"CCC", none⟩]⟩).1
      = .ok [⟨"AAA"⟩]
    ∧ (({} : BitgetClient).get_trading_pairs (fun _ m => m) initialState
        ⟨0, 0, 0, 0, fun _ => .ok [⟨"DDD", "ONLINE"⟩, ⟨"EEE", "halted"⟩]⟩).1
      = .ok [⟨"DDD"⟩] := by
  constructor
  · have h := (c7_trading_pairs_active_filter (fun _ m => m) initialState).1
      ({} : BingXClient)
      ⟨0, 0, 0, 0, fun _ => .ok [⟨"AAA", some 1⟩, ⟨"BBB", some 0⟩, ⟨"CCC", none⟩]⟩
      [⟨"AAA", some 1⟩, ⟨"BBB", some 0⟩, ⟨"CCC", none⟩] (fun _ => rfl)
    rw [h]
    rfl
  · have h := (c7_trading_pairs_active_filter (fun _ m => m) initialState).2.1
      ({} : BitgetClient)
      ⟨0, 0, 0, 0, fun _ => .ok [⟨"DDD", "ONLINE"⟩, ⟨"EEE", "halted"⟩]⟩
      [⟨"DDD", "ONLINE"⟩, ⟨"EEE", "halted"⟩] (fun _ => rfl)
    rw [h]
    rfl

/-! ## C8 — session lifecycle -/

/-- Bookkeeping invariant of the session-identifier model: every session
identifier ever handed out is below the counter. -/
def SessionWF (st : ClientState) : Prop :=
  (∀ s, st.session = some s → s < st.sessionCounter)
    ∧ ∀ s, s ∈ st.closedSessions → s < st.sessionCounter

/-- `_make_request` applies exactly this state transition (for every one of
the four clients): record the rate-limit timestamp, then create a session
if none exists. -/
def dispatchState (st : ClientState) (env : CallEnv R) : ClientState :=
  let st1 : ClientState := { st with lastRequestTime := env.now2 }
  if st1.session.isNone then create_session st1 else st1

lemma BingXClient.bingx_make_request_state {R : Type} (c : BingXClient)
    (hmacHex : String → String → String) (st : ClientState) (env : CallEnv R)
    (method endpoint : String) (params : Option (List (String × String))) :
    (BingXClient.make_request c hmacHex st env method endpoint params).state
        = dispatchState st env
      ∧ ∀ req ∈ (BingXClient.make_request c hmacHex st env method endpoint params).requests,
        some req.sessionUsed = (dispatchState st env).session := by
  unfold BingXClient.make_request dispatchState
  cases c.credentials <;> dsimp only <;> split <;>
    refine ⟨rfl, ?_⟩ <;>
    · intro req hreq
      simp only [List.mem_singleton] at hreq
      subst hreq
      rcases hs : st.session with _ | s <;>
        split <;>
        simp_all [create_session, Option.isNone_iff_eq_none]

lemma BitgetClient.bitget_make_request_state {R : Type} (c : BitgetClient)
    (hmacHex : String → String → String) (st : ClientState) (env : CallEnv R)
    (method endpoint : String) (params : Option (List (String × String))) :
    (BitgetClient.make_request c hmacHex st env method endpoint params).state
        = dispatchState st env
      ∧ ∀ req ∈ (BitgetClient.make_request c hmacHex st env method endpoint params).requests,
        some req.sessionUsed = (dispatchState st env).session := by
  unfold BitgetClient.make_request dispatchState
  dsimp only
  split <;>
    refine ⟨rfl, ?_⟩ <;>
    · intro req hreq
      simp only [List.mem_singleton] at hreq
      subst hreq
      rcases hs : st.session with _ | s <;>
        split <;>
        simp_all [create_session, Option.isNone_iff_eq_none]

lemma BybitClient.bybit_make_request_state {R : Type} (c : BybitClient)
    (hmacHex : String → String → String) (st : ClientState) (env : CallEnv R)
    (method endpoint : String) (params : Option (List (String × String))) :
    (BybitClient.make_request c hmacHex st env method endpoint params).state
        = dispatchState st env
      ∧ ∀ req ∈ (BybitClient.make_request c hmacHex st env method endpoint params).requests,
        some req.sessionUsed = (dispatchState st env).session := by
  unfold BybitClient.make_request dispatchState
  dsimp only
  split <;>
    refine ⟨rfl, ?_⟩ <;>
    · intro req hreq
      simp only [List.mem_singleton] at hreq
      subst hreq
      rcases hs : st.session with _ | s <;>
        split <;>
        simp_all [create_session, Option.isNone_iff_eq_none]

lemma CoinBaseClient.coinbase_make_request_state {R : Type} (c : CoinBaseClient)
    (hmacHex : String → String → String) (st : ClientState) (env : CallEnv R)
    (method endpoint : String) (params : Option (List (String × String))) :
    (CoinBaseClient.make_request c hmacHex st env method endpoint params).state
        = dispatchState st env
      ∧ ∀ req ∈ (CoinBaseClient.make_request c hmacHex st env method endpoint params).requests,
        some req.sessionUsed = (dispatchState st env).session := by
  unfold CoinBaseClient.make_request dispatchState
  dsimp only
  split <;>
    refine ⟨rfl, ?_⟩ <;>
    · intro req hreq
      simp only [List.mem_singleton] at hreq
      subst hreq
      rcases hs : st.session with _ | s <;>
        split <;>
        simp_all [create_session, Option.isNone_iff_eq_none]

/-- **C8.**  Session lifecycle: a request issued with no session creates
one before sending (every client's dispatcher applies `dispatchState`, and
the request goes out on the newly created session); after `close_session`
a bare request runs on a fresh session — one that is not the closed one
and has never been closed; and `create_session` on an existing session is
the identity. -/
theorem c8_session_lifecycle (st : ClientState) :
    ((∀ {R : Type} (c : BingXClient) hmacHex (env : CallEnv R) method endpoint params,
        (BingXClient.make_request c hmacHex st env method endpoint params).state
          = dispatchState st env
        ∧ ∀ req ∈ (BingXClient.make_request c hmacHex st env method endpoint params).requests,
            some req.sessionUsed = (dispatchState st env).session)
      ∧ (∀ {R : Type} (c : BitgetClient) hmacHex (env : CallEnv R) method endpoint params,
        (BitgetClient.make_request c hmacHex st env method endpoint params).state
          = dispatchState st env
        ∧ ∀ req ∈ (BitgetClient.make_request c hmacHex st env method endpoint params).requests,
            some req.sessionUsed = (dispatchState st env).session)
      ∧ (∀ {R : Type} (c : BybitClient) hmacHex (env : CallEnv R) method endpoint params,
        (BybitClient.make_request c hmacHex st env method endpoint params).state
          = dispatchState st env
        ∧ ∀ req ∈ (BybitClient.make_request c hmacHex st env method endpoint params).requests,
            some req.sessionUsed = (dispatchState st env).session)
      ∧ (∀ {R : Type} (c : CoinBaseClient) hmacHex (env : CallEnv R) method endpoint params,
        (CoinBaseClient.make_request c hmacHex st env method endpoint params).state
          = dispatchState st env
        ∧ ∀ req ∈ (CoinBaseClient.make_request c hmacHex st env method endpoint params).requests,
            some req.sessionUsed = (dispatchState st env).session))
    ∧ (∀ {R : Type} (env : CallEnv R), st.session = none →
        (dispatchState st env).session = some st.sessionCounter)
    ∧ (∀ {R : Type} (env : CallEnv R) s, st.session = some s → SessionWF st →
        (dispatchState (close_session st) env).session = some st.sessionCounter
        ∧ st.sessionCounter ≠ s
        ∧ st.sessionCounter ∉ (close_session st).closedSessions)
    ∧ (∀ {R : Type} (env : CallEnv R) s, st.session = some s →
        (dispatchState st env).session = some s)
    ∧ (∀ s, st.session = some s → create_session st = st) := by
  refine ⟨⟨fun c hmacHex env method endpoint params =>
      BingXClient.bingx_make_request_state c hmacHex st env method endpoint params,
    fun c hmacHex env method endpoint params =>
      BitgetClient.bitget_make_request_state c hmacHex st env method endpoint params,
    fun c hmacHex env method endpoint params =>
      BybitClient.bybit_make_request_state c hmacHex st env method endpoint params,
    fun c hmacHex env method endpoint params =>
      CoinBaseClient.coinbase_make_request_state c hmacHex st env method endpoint params⟩,
    ?_, ?_, ?_, ?_⟩
  · intro R env hnone
    unfold dispatchState create_session
    simp [hnone]
  · intro R env s hsome hwf
    have hlt : s < st.sessionCounter := hwf.1 s hsome
    unfold close_session
    rw [hsome]
    refine ⟨?_, by omega, ?_⟩
    · unfold dispatchState create_session
      simp
    · dsimp only
      intro hmem
      rcases List.mem_cons.mp hmem with h | h
      · omega
      · exact absurd (hwf.2 _ h) (by omega)
  · intro R env s hsome
    unfold dispatchState create_session
    simp [hsome]
  · intro s hsome
    unfold create_session
    simp [hsome]

/-- Witness for C8, at the initial state after one `create_session` and a
concrete Bitget request: closing and re-requesting runs on a new, never
reused session identifier. -/
theorem c8_session_lifecycle_witness :
    (dispatchState (close_session (create_session initialState))
        (⟨0, 0, 0, 0, fun _ => (.error "down" : Except String DepthPayload)⟩)).session
      = some 1
    ∧ (1 : Nat) ≠ 0
    ∧ (1 : Nat) ∉ (close_session (create_session initialState)).closedSessions
    ∧ create_session (create_session initialState) = create_session initialState := by
  have h := c8_session_lifecycle (create_session initialState)
  have h3 := h.2.2.1 (R := DepthPayload)
    (⟨0, 0, 0, 0, fun _ => (.error "down" : Except String DepthPayload)⟩) 0 rfl
    (by constructor
        · intro s hs
          have hs' : s = 0 := by simpa [create_session, initialState] using hs.symm
          have hc : (create_session initialState).sessionCounter = 1 := rfl
          omega
        · intro s hs
          simp [create_session, initialState] at hs)
  have h5 := h.2.2.2.2 0 rfl
  exact ⟨h3.1, h3.2.1, h3.2.2, h5⟩

/-! ## C9 — rate-limiter spacing -/

/-- Each recorded start is at least `rl` after the previous recorded value. -/
lemma admissible_chain (rl : Rat) :
    ∀ (reads : List (Rat × Rat)) (last : Rat), Admissible rl last reads →
      List.Chain (fun a b => a + rl ≤ b) last (runRateLimiter last reads) := by
  intro reads
  induction reads with
  | nil => intro last _; simp [runRateLimiter]
  | cons hd tl ih =>
    intro last hadm
    obtain ⟨n1, n2⟩ := hd
    obtain ⟨h1, h2, h3⟩ := hadm
    unfold runRateLimiter
    refine List.Chain.cons ?_ (ih n2 h3)
    unfold rateLimitDelay at h2
    split_ifs at h2 with hc <;> linarith

/-- A chain of `rl`-spaced values grows by `rl` per element. -/
lemma chain_growth (rl : Rat) :
    ∀ (l : List Rat) (a : Rat), List.Chain (fun x y => x + rl ≤ y) a l →
      a + l.length * rl ≤ l.getLastD a := by
  intro l
  induction l with
  | nil => intro a _; simp
  | cons b tl ih =>
    intro a hchain
    rw [List.chain_cons] at hchain
    have hib := ih b hchain.2
    rw [List.getLastD_cons]
    have : (b :: tl).length = tl.length + 1 := rfl
    rw [this]
    push_cast
    have := hchain.1
    nlinarith [hib, hchain.1]

/-- **C9.**  Under the mutex, successive recorded request-start timestamps
are spaced by at least the configured interval (`Chain` conjunct), hence K
recorded starts span at least (K-1) × interval of wall-clock time (second
conjunct), given only that the clock does not run backwards within a block
and `asyncio.sleep(d)` suspends for at least `d` (the `Admissible`
hypothesis). -/
theorem c9_rate_limiter_spacing (rl last : Rat) (reads : List (Rat × Rat))
    (hadm : Admissible rl last reads) :
    List.Chain (fun a b => a + rl ≤ b) last (runRateLimiter last reads)
    ∧ ∀ first rest, runRateLimiter last reads = first :: rest →
        first + rest.length * rl ≤ rest.getLastD first := by
  have hchain := admissible_chain rl reads last hadm
  refine ⟨hchain, ?_⟩
  intro first rest hrun
  rw [hrun] at hchain
  rw [List.chain_cons] at hchain
  exact chain_growth rl rest first hchain.2

/-- Witness for C9: interval 1/10, two requests; the second recorded start
5.1 is at least 0.1 after the first recorded start 5. -/
theorem c9_rate_limiter_spacing_witness :
    (5 : Rat) + ((([(51 : Rat) / 10]).length : Rat)) * (1 / 10)
      ≤ ([(51 : Rat) / 10]).getLastD 5 := by
  have hadm : Admissible (1 / 10) 0 [((5 : Rat), (5 : Rat)), ((5 : Rat), 51 / 10)] := by
    refine ⟨by norm_num, ?_, by norm_num, ?_, trivial⟩
    · unfold rateLimitDelay
      norm_num
    · unfold rateLimitDelay
      norm_num
  exact (c9_rate_limiter_spacing (1 / 10) 0 [((5 : Rat), (5 : Rat)), ((5 : Rat), 51 / 10)]
    hadm).2 5 [51 / 10] rfl

/-! ## C3 — depth bound on returned levels -/

/-- Counterexample to C3 as stated: BingX `get_orderbook` does not truncate.
With the valid depth 5 and a server response carrying six bid rows, the
returned book has six bid levels, refuting "at most `depth` levels per side
for every server response". -/
theorem c3_depth_bound_counterexample :
    ((({} : BingXClient).get_orderbook (fun _ m => m) initialState
          ⟨0, 0, 0, 0, fun _ => .ok ⟨List.replicate 6 ((1 : Rat), (1 : Rat)), [], 0⟩⟩
          "BTCUSDT" 5).1.map fun ob => ob.bids.length) = .ok 6
      ∧ ¬ (6 : Nat) ≤ 5 := by
  exact ⟨rfl, by omega⟩

/-- **C3 (amended).**  Coinbase's `get_orderbook` truncates with `[:limit]`
and therefore returns at most `depth` levels per side for every server
response; BingX, Bybit and Bitget return exactly one level per response
row, so their books respect the bound exactly when the response does. -/
theorem c3_depth_bound_amended
    (hmacHex : String → String → String) (st : ClientState) :
    (∀ (c : CoinBaseClient) (env : CallEnv BookPayload) symbol limit ob,
        (c.get_orderbook hmacHex st env symbol limit).1 = .ok ob →
        (ob.bids.length : Int) ≤ limit ∧ (ob.asks.length : Int) ≤ limit)
    ∧ (∀ (c : BingXClient) (env : CallEnv DepthPayload) payload symbol limit ob,
        (∀ req, env.respond req = .ok payload) →
        (c.get_orderbook hmacHex st env symbol limit).1 = .ok ob →
        ob.bids.length = payload.bids.length ∧ ob.asks.length = payload.asks.length)
    ∧ (∀ (c : BybitClient) (env : CallEnv DepthPayload) payload symbol limit ob,
        (∀ req, env.respond req = .ok payload) →
        (c.get_orderbook hmacHex st env symbol limit).1 = .ok ob →
        ob.bids.length = payload.bids.length ∧ ob.asks.length = payload.asks.length)
    ∧ (∀ (c : BitgetClient) (env : CallEnv DepthPayload) payload symbol limit ob,
        (∀ req, env.respond req = .ok payload) →
        (c.get_orderbook hmacHex st env symbol limit).1 = .ok ob →
        ob.bids.length = payload.bids.length ∧ ob.asks.length = payload.asks.length) := by
  refine ⟨?_, ?_, ?_, ?_⟩
  · intro c env symbol limit ob hok
    unfold CoinBaseClient.get_orderbook at hok
    by_cases hv : limit ≤ 0 ∨ limit > 50
    · rw [if_pos hv] at hok
      exact absurd hok (by simp)
    · rw [if_neg hv] at hok
      dsimp only at hok
      split at hok
      · exact absurd hok (by simp)
      · simp only [Except.ok.injEq] at hok
        subst hok
        push_neg at hv
        constructor <;>
          · dsimp only
            simp only [List.length_map, List.length_take]
            omega
  · intro c env payload symbol limit ob henv hok
    unfold BingXClient.get_orderbook at hok
    by_cases hv : limit ∉ ([5, 10, 20, 50, 100, 500, 1000] : List Int)
    · rw [if_pos hv] at hok
      exact absurd hok (by simp)
    · rw [if_neg hv] at hok
      dsimp only at hok
      rw [BingXClient.bingx_make_request_result_const c hmacHex st env _ _ _ _ henv] at hok
      simp only [Except.ok.injEq] at hok
      subst hok
      constructor <;> simp
  · intro c env payload symbol limit ob henv hok
    unfold BybitClient.get_orderbook at hok
    by_cases hv : limit ∉ ([1, 25, 50, 100, 200] : List Int)
    · rw [if_pos hv] at hok
      exact absurd hok (by simp)
    · rw [if_neg hv] at hok
      dsimp only at hok
      rw [BybitClient.bybit_make_request_result_const c hmacHex st env _ _ _ _ henv] at hok
      simp only [Except.ok.injEq] at hok
      subst hok
      constructor <;> simp
  · intro c env payload symbol limit ob henv hok
    unfold BitgetClient.get_orderbook at hok
    by_cases hv : limit ≤ 0 ∨ limit > 150
    · rw [if_pos hv] at hok
      exact absurd hok (by simp)
    · rw [if_neg hv] at hok
      dsimp only at hok
      rw [BitgetClient.bitget_make_request_result_const c hmacHex st env _ _ _ _ henv] at hok
      simp only [Except.ok.injEq] at hok
      subst hok
      constructor <;> simp

/-- Concrete books for the claim witnesses below. -/
def witnessBookCB : OrderBook :=
  { symbol := "BTC-USD", bids := [⟨1, 1⟩, ⟨2, 2⟩], asks := [⟨4, 4⟩], timestamp := 0 }

def witnessBookBX : OrderBook :=
  { symbol := "BTCUSDT", bids := [⟨1, 1⟩, ⟨2, 2⟩], asks := [], timestamp := 9 }

/-- Witness for the amended C3: Coinbase truncates a three-row side to the
requested two levels; BingX returns exactly the response's two rows. -/
theorem c3_depth_bound_amended_witness :
    ((witnessBookCB.bids.length : Int) ≤ 2 ∧ (witnessBookCB.asks.length : Int) ≤ 2)
    ∧ (witnessBookBX.bids.length = ([((1 : Rat), (1 : Rat)), (2, 2)] : List (Rat × Rat)).length
      ∧ witnessBookBX.asks.length = ([] : List (Rat × Rat)).length) := by
  constructor
  · exact (c3_depth_bound_amended (fun _ m => m) initialState).1 ({} : CoinBaseClient)
      ⟨0, 0, 0, 0, fun _ => .ok ⟨[(1, 1), (2, 2), (3, 3)], [(4, 4)]⟩⟩ "BTC-USD" 2
      witnessBookCB rfl
  · exact (c3_depth_bound_amended (fun _ m => m) initialState).2.1 ({} : BingXClient)
      ⟨0, 0, 0, 0, fun _ => .ok ⟨[(1, 1), (2, 2)], [], 9⟩⟩ ⟨[(1, 1), (2, 2)], [], 9⟩
      "BTCUSDT" 5 witnessBookBX (fun _ => rfl) rfl

/-! ## C10 — construction of the returned order book -/

/-- Counterexample to C10 as stated: a successful Coinbase
`get_orderbook` call with depth 1 against a response whose `bids` array
has two rows returns one level, not one level per response row. -/
theorem c10_orderbook_parse_counterexample :
    ((({} : CoinBaseClient).get_orderbook (fun _ m => m) initialState
          ⟨0, 0, 0, 0, fun _ => .ok ⟨[((1 : Rat), (2 : Rat)), (3, 4)], []⟩⟩
          "BTC-USD" 1).1.map fun ob => ob.bids.length) = .ok 1
      ∧ ([((1 : Rat), (2 : Rat)), ((3 : Rat), (4 : Rat))] : List (Rat × Rat)).length ≠ 1 := by
  exact ⟨rfl, by simp⟩

/-- **C10 (amended).**  For every successful `get_orderbook(symbol, depth)`
call the returned book's `symbol` equals the argument, and for BingX,
Bybit and Bitget the `bids`/`asks` lists carry one `OrderBookLevel` per
response row, in order, with `price` from element 0 and `quantity` from
element 1 and the server timestamp; for Coinbase the same holds for the
first `depth` rows of each side only, with a locally captured timestamp. -/
theorem c10_orderbook_parse_amended
    (hmacHex : String → String → String) (st : ClientState) :
    (∀ (c : BingXClient) (env : CallEnv DepthPayload) payload symbol limit,
        limit ∈ ([5, 10, 20, 50, 100, 500, 1000] : List Int) →
        (∀ req, env.respond req = .ok payload) →
        (c.get_orderbook hmacHex st env symbol limit).1
          = .ok { symbol := symbol,
                  bids := payload.bids.map fun b => { price := b.1, quantity := b.2 },
                  asks := payload.asks.map fun a => { price := a.1, quantity := a.2 },
                  timestamp := payload.ts })
    ∧ (∀ (c : BybitClient) (env : CallEnv DepthPayload) payload symbol limit,
        limit ∈ ([1, 25, 50, 100, 200] : List Int) →
        (∀ req, env.respond req = .ok payload) →
        (c.get_orderbook hmacHex st env symbol limit).1
          = .ok { symbol := symbol,
                  bids := payload.bids.map fun b => { price := b.1, quantity := b.2 },
                  asks := payload.asks.map fun a => { price := a.1, quantity := a.2 },
                  timestamp := payload.ts })
    ∧ (∀ (c : BitgetClient) (env : CallEnv DepthPayload) payload symbol limit,
        0 < limit → limit ≤ 150 →
        (∀ req, env.respond req = .ok payload) →
        (c.get_orderbook hmacHex st env symbol limit).1
          = .ok { symbol := symbol,
                  bids := payload.bids.map fun b => { price := b.1, quantity := b.2 },
                  asks := payload.asks.map fun a => { price := a.1, quantity := a.2 },
                  timestamp := payload.ts })
    ∧ (∀ (c : CoinBaseClient) (env : CallEnv BookPayload) payload symbol limit,
        0 < limit → limit ≤ 50 →
        (∀ req, env.respond req = .ok payload) →
        (c.get_orderbook hmacHex st env symbol limit).1
          = .ok { symbol := symbol,
                  bids := (payload.bids.take limit.toNat).map
                    fun b => { price := b.1, quantity := b.2 },
                  asks := (payload.asks.take limit.toNat).map
                    fun a => { price := a.1, quantity := a.2 },
                  timestamp := env.respTsMillis }) := by
  refine ⟨?_, ?_, ?_, ?_⟩
  · intro c env payload symbol limit hval henv
    unfold BingXClient.get_orderbook
    rw [if_neg (not_not_intro hval)]
    dsimp only
    rw [BingXClient.bingx_make_request_result_const c hmacHex st env _ _ _ _ henv]
  · intro c env payload symbol limit hval henv
    unfold BybitClient.get_orderbook
    rw [if_neg (not_not_intro hval)]
    dsimp only
    rw [BybitClient.bybit_make_request_result_const c hmacHex st env _ _ _ _ henv]
  · intro c env payload symbol limit h1 h2 henv
    unfold BitgetClient.get_orderbook
    rw [if_neg (by omega)]
    dsimp only
    rw [BitgetClient.bitget_make_request_result_const c hmacHex st env _ _ _ _ henv]
  · intro c env payload symbol limit h1 h2 henv
    unfold CoinBaseClient.get_orderbook
    rw [if_neg (by omega)]
    dsimp only
    rw [CoinBaseClient.coinbase_make_request_result_const c hmacHex st env _ _ _ _ henv]

/-- Witness for the amended C10: a two-row BingX response maps to two
levels in order with prices from the first and quantities from the second
element; a Coinbase call with depth 1 keeps the first row only. -/
theorem c10_orderbook_parse_amended_witness :
    (({} : BingXClient).get_orderbook (fun _ m => m) initialState
        ⟨0, 0, 0, 0, fun _ => .ok ⟨[((10 : Rat), (1 : Rat)), (9, 2)], [(11, 3)], 42⟩⟩
        "BTCUSDT" 10).1
      = .ok { symbol := "BTCUSDT",
              bids := [{ price := 10, quantity := 1 }, { price := 9, quantity := 2 }],
              asks := [{ price := 11, quantity := 3 }],
              timestamp := 42 }
    ∧ (({} : CoinBaseClient).get_orderbook (fun _ m => m) initialState
        ⟨0, 0, 0, 77, fun _ => .ok ⟨[((10 : Rat), (1 : Rat)), (9, 2)], [(11, 3)]⟩⟩
        "BTC-USD" 1).1
      = .ok { symbol := "BTC-USD",
              bids := [{ price := 10, quantity := 1 }],
              asks := [{ price := 11, quantity := 3 }],
              timestamp := 77 } := by
  constructor
  · exact (c10_orderbook_parse_amended (fun _ m => m) initialState).1 ({} : BingXClient)
      ⟨0, 0, 0, 0, fun _ => .ok ⟨[(10, 1), (9, 2)], [(11, 3)], 42⟩⟩
      ⟨[(10, 1), (9, 2)], [(11, 3)], 42⟩ "BTCUSDT" 10 (by decide) (fun _ => rfl)
  · exact (c10_orderbook_parse_amended (fun _ m => m) initialState).2.2.2 ({} : CoinBaseClient)
      ⟨0, 0, 0, 77, fun _ => .ok ⟨[(10, 1), (9, 2)], [(11, 3)]⟩⟩
      ⟨[(10, 1), (9, 2)], [(11, 3)]⟩ "BTC-USD" 1 (by decide) (by decide) (fun _ => rfl)

/-! ## Association-lookup facts for the dispatch claims -/

lemma alookup_append {α : Type} (k : String) :
    ∀ (d l : List (String × α)), alookup (d ++ l) k
      = match alookup d k with
        | some v => some v
        | none => alookup l k := by
  intro d l
  induction d with
  | nil => simp [alookup]
  | cons p rest ih =>
    obtain ⟨k', v⟩ := p
    by_cases h : k' = k
    · simp [alookup, h]
    · simpa [alookup, h] using ih

lemma alookup_cons {α : Type} (k k' : String) (v : α) (rest : List (String × α)) :
    alookup ((k', v) :: rest) k = if k' = k then some v else alookup rest k := rfl

lemma alookup_eq_none_of_not_mem {α : Type} (k : String) :
    ∀ d : List (String × α), k ∉ d.map Prod.fst → alookup d k = none := by
  intro d
  induction d with
  | nil => intro _; rfl
  | cons p rest ih =>
    intro hnot
    obtain ⟨k', w⟩ := p
    rw [alookup_cons, if_neg (by intro h; exact hnot (by simp [h]))]
    exact ih fun h => hnot (by simp [h])

lemma alookup_map_replace {α : Type} (k : String) (v : α) :
    ∀ (d : List (String × α)), k ∈ d.map Prod.fst →
      alookup (d.map fun p => if p.1 = k then (k, v) else p) k = some v := by
  intro d
  induction d with
  | nil => simp
  | cons p rest ih =>
    intro hmem
    obtain ⟨k', w⟩ := p
    simp only [List.map_cons, List.mem_cons] at hmem
    rw [List.map_cons]
    dsimp only
    by_cases h : k' = k
    · rw [if_pos h, alookup_cons, if_pos rfl]
    · rw [if_neg h, alookup_cons, if_neg h]
      rcases hmem with h1 | h1
      · exact absurd h1.symm h
      · exact ih h1

lemma alookup_map_replace_ne {α : Type} (k k' : String) (v : α) (hne : k' ≠ k) :
    ∀ d : List (String × α),
      alookup (d.map fun p => if p.1 = k' then (k', v) else p) k = alookup d k := by
  intro d
  induction d with
  | nil => rfl
  | cons p rest ih =>
    obtain ⟨k0, w⟩ := p
    rw [List.map_cons]
    dsimp only
    by_cases h : k0 = k'
    · subst h
      rw [if_pos rfl, alookup_cons, alookup_cons, if_neg hne, if_neg hne]
      exact ih
    · rw [if_neg h, alookup_cons, alookup_cons]
      by_cases h2 : k0 = k
      · rw [if_pos h2, if_pos h2]
      · rw [if_neg h2, if_neg h2]
        exact ih

lemma alookup_dictSet {α : Type} (d : List (String × α)) (k : String) (v : α) :
    alookup (dictSet d k v) k = some v := by
  unfold dictSet
  split
  · rename_i hc
    exact alookup_map_replace k v d (by simpa using hc)
  · rename_i hc
    rw [alookup_append, alookup_eq_none_of_not_mem k d (by simpa using hc)]
    rw [alookup_cons, if_pos rfl]

lemma alookup_dictSet_ne {α : Type} (d : List (String × α)) (k k' : String) (v : α)
    (hne : k' ≠ k) : alookup (dictSet d k' v) k = alookup d k := by
  unfold dictSet
  split
  · exact alookup_map_replace_ne k k' v hne d
  · rw [alookup_append]
    cases h : alookup d k
    · rw [alookup_cons, if_neg hne]
      rfl
    · rfl

/-! ## C5 — what the Dispatcher does on every call -/

/-- Counterexample to C5 as stated: the Bitget dispatcher appends no
timestamp parameter.  A concrete authenticated GET sends exactly the
caller's parameters — the single outbound request's query keys are
`["symbol"]`, which do not include "timestamp". -/
theorem c5_dispatch_counterexample :
    ((BitgetClient.make_request
          ({ credentials := some ⟨"key", "secret"⟩ } : BitgetClient) (fun _ m => m)
          initialState
          ⟨0, 0, 1234, 0, fun _ => (.error "down" : Except String DepthPayload)⟩
          "GET" "/api/v2/spot/market/orderbook"
          (some [("symbol", "BTCUSDT")])).requests.map fun req => keysOf req.query)
      = [["symbol"]]
    ∧ "timestamp" ∉ (["symbol"] : List String) := by
  exact ⟨rfl, by decide⟩

/-- **C5 (amended).**  On every call the Dispatcher lazily creates the
session if absent (`dispatchState`); BingX appends a millisecond timestamp
parameter to the request parameters (query for GET, JSON body otherwise)
and, when credentials are present, invokes the Signer once, appends the
signature parameter and attaches `X-BX-APIKEY`; the timestamp-prefixed
clients (Bitget and Coinbase cited) leave the request parameters untouched
— a GET with truthy params sends them as the query string, anything else
as the JSON body — and carry the timestamp only in the auth headers, which
exist exactly when credentials are present. -/
theorem c5_dispatcher_behaviour
    (hmacHex : String → String → String) (st : ClientState)
    (method endpoint : String) (params : Option (List (String × String))) :
    (∀ {R : Type} (c : BingXClient) (env : CallEnv R),
        (BingXClient.make_request c hmacHex st env method endpoint params).state
          = dispatchState st env
        ∧ ∀ req ∈ (BingXClient.make_request c hmacHex st env method endpoint params).requests,
            req.method = method
            ∧ (method = "GET" →
                alookup req.query "timestamp" = some (toString env.tsMillis)
                ∧ req.jsonBody = none)
            ∧ (method ≠ "GET" → req.query = []
                ∧ ∃ body, req.jsonBody = some body
                    ∧ alookup body "timestamp" = some (toString env.tsMillis))
            ∧ (∀ cred, c.credentials = some cred →
                req.headers = [("X-BX-APIKEY", cred.api_key)]
                ∧ (BingXClient.make_request c hmacHex st env method endpoint params).signedMessages.length = 1)
            ∧ (c.credentials = none → req.headers = []
                ∧ (BingXClient.make_request c hmacHex st env method endpoint params).signedMessages = []))
    ∧ (∀ {R : Type} (c : BitgetClient) (env : CallEnv R),
        (BitgetClient.make_request c hmacHex st env method endpoint params).state
          = dispatchState st env
        ∧ ∀ req ∈ (BitgetClient.make_request c hmacHex st env method endpoint params).requests,
            req.method = method
            ∧ (method = "GET" ∧ pyTruthy params = true →
                req.query = params.getD [] ∧ req.jsonBody = none)
            ∧ (¬ (method = "GET" ∧ pyTruthy params = true) →
                req.query = [] ∧ req.jsonBody = params)
            ∧ (∀ cred, c.credentials = some cred →
                alookup req.headers "ACCESS-TIMESTAMP" = some (toString env.tsMillis)
                ∧ (BitgetClient.make_request c hmacHex st env method endpoint params).signedMessages.length = 1)
            ∧ (c.credentials = none → req.headers = []
                ∧ (BitgetClient.make_request c hmacHex st env method endpoint params).signedMessages = []))
    ∧ (∀ {R : Type} (c : CoinBaseClient) (env : CallEnv R),
        (CoinBaseClient.make_request c hmacHex st env method endpoint params).state
          = dispatchState st env
        ∧ ∀ req ∈ (CoinBaseClient.make_request c hmacHex st env method endpoint params).requests,
            req.method = method
            ∧ (method = "GET" ∧ pyTruthy params = true →
                req.query = params.getD [] ∧ req.jsonBody = none)
            ∧ (¬ (method = "GET" ∧ pyTruthy params = true) →
                req.query = [] ∧ req.jsonBody = params)
            ∧ (∀ cred, c.credentials = some cred →
                alookup req.headers "X-BM-TIMESTAMP" = some (toString env.tsMillis)
                ∧ (CoinBaseClient.make_request c hmacHex st env method endpoint params).signedMessages.length = 1)
            ∧ (c.credentials = none → req.headers = []
                ∧ (CoinBaseClient.make_request c hmacHex st env method endpoint params).signedMessages = [])) := by
  refine ⟨?_, ?_, ?_⟩
  · intro R c env
    refine ⟨(BingXClient.bingx_make_request_state c hmacHex st env method endpoint params).1, ?_⟩
    intro req hreq
    unfold BingXClient.make_request at hreq ⊢
    cases hcred : c.credentials <;> dsimp only <;> rw [hcred] at hreq <;> dsimp only at hreq <;>
      split at hreq <;>
      simp only [List.mem_singleton] at hreq <;> subst hreq <;>
      refine ⟨rfl, ?_, ?_, ?_, ?_⟩ <;>
      simp_all [alookup_dictSet, alookup_dictSet_ne, alookup, hcred]
  · intro R c env
    refine ⟨(BitgetClient.bitget_make_request_state c hmacHex st env method endpoint params).1, ?_⟩
    intro req hreq
    unfold BitgetClient.make_request at hreq ⊢
    dsimp only at hreq ⊢
    split at hreq <;>
      simp only [List.mem_singleton] at hreq <;> subst hreq <;>
      refine ⟨rfl, ?_, ?_, ?_, ?_⟩ <;>
      cases hcred : c.credentials <;>
      simp_all [alookup, BitgetClient.signature_core]
  · intro R c env
    refine ⟨(CoinBaseClient.coinbase_make_request_state c hmacHex st env method endpoint params).1, ?_⟩
    intro req hreq
    unfold CoinBaseClient.make_request at hreq ⊢
    dsimp only at hreq ⊢
    split at hreq <;>
      simp only [List.mem_singleton] at hreq <;> subst hreq <;>
      refine ⟨rfl, ?_, ?_, ?_, ?_⟩ <;>
      cases hcred : c.credentials <;>
      simp_all [alookup, CoinBaseClient.signature_core]

/-- A placeholder request value for `headD`. -/
def defaultReq : SentRequest :=
  { method := "", url := "", query := [], jsonBody := none, headers := [], sessionUsed := 0 }

/-- Witness for the amended C5, on a concrete authenticated Bitget GET:
the sent query is exactly the caller's parameters and the millisecond
timestamp 1234 travels in the ACCESS-TIMESTAMP header. -/
theorem c5_dispatcher_behaviour_witness :
    ((BitgetClient.make_request ({ credentials := some ⟨"key", "secret"⟩ } : BitgetClient)
          (fun _ m => m) initialState
          ⟨0, 0, 1234, 0, fun _ => (.error "down" : Except String DepthPayload)⟩
          "GET" "/api/v2/spot/market/orderbook" (some [("symbol", "BTCUSDT")])).requests.headD
        defaultReq).query = [("symbol", "BTCUSDT")]
    ∧ alookup ((BitgetClient.make_request ({ credentials := some ⟨"key", "secret"⟩ } : BitgetClient)
          (fun _ m => m) initialState
          ⟨0, 0, 1234, 0, fun _ => (.error "down" : Except String DepthPayload)⟩
          "GET" "/api/v2/spot/market/orderbook" (some [("symbol", "BTCUSDT")])).requests.headD
        defaultReq).headers "ACCESS-TIMESTAMP" = some "1234" := by
  have h := (c5_dispatcher_behaviour (fun _ m => m) initialState
      "GET" "/api/v2/spot/market/orderbook" (some [("symbol", "BTCUSDT")])).2.1
      (R := DepthPayload) ({ credentials := some ⟨"key", "secret"⟩ } : BitgetClient)
      ⟨0, 0, 1234, 0, fun _ => (.error "down" : Except String DepthPayload)⟩
  have hmem : ((BitgetClient.make_request ({ credentials := some ⟨"key", "secret"⟩ } : BitgetClient)
        (fun _ m => m) initialState
        ⟨0, 0, 1234, 0, fun _ => (.error "down" : Except String DepthPayload)⟩
        "GET" "/api/v2/spot/market/orderbook" (some [("symbol", "BTCUSDT")])).requests.headD
      defaultReq)
      ∈ (BitgetClient.make_request ({ credentials := some ⟨"key", "secret"⟩ } : BitgetClient)
        (fun _ m => m) initialState
        ⟨0, 0, 1234, 0, fun _ => (.error "down" : Except String DepthPayload)⟩
        "GET" "/api/v2/spot/market/orderbook" (some [("symbol", "BTCUSDT")])).requests :=
    List.mem_singleton.mpr rfl
  have hp := h.2 _ hmem
  exact ⟨(hp.2.1 ⟨rfl, rfl⟩).1, (hp.2.2.2.1 ⟨"key", "secret"⟩ rfl).1⟩

/-! ## C6 — one signature per authenticated request, matching timestamp -/

/-- **C6.**  On every authenticated call exactly one canonical string is
signed.  For BingX it is the urlencoding of the sorted parameters carrying
`("timestamp", ts)`, and the very same `ts` is the request's `timestamp`
query parameter; for Bitget / Coinbase the canonical string is
`timestampCanonical ts params` — whose prefix is the rendered `ts` — and
the same `ts` is sent as the `ACCESS-TIMESTAMP` / `X-BM-TIMESTAMP` header. -/
theorem c6_one_signature_matching_timestamp
    (hmacHex : String → String → String) (st : ClientState)
    (method endpoint : String) (params : Option (List (String × String))) :
    (∀ {R : Type} (c : BingXClient) (env : CallEnv R) cred, c.credentials = some cred →
        (BingXClient.make_request c hmacHex st env method endpoint params).signedMessages
          = [urlencodeItems (sortPairsTuple
              (dictSet (params.getD []) "timestamp" (toString env.tsMillis)))]
        ∧ ∀ req ∈ (BingXClient.make_request c hmacHex st env method endpoint params).requests,
            method = "GET" →
            alookup req.query "timestamp" = some (toString env.tsMillis))
    ∧ (∀ {R : Type} (c : BitgetClient) (env : CallEnv R) cred, c.credentials = some cred →
        (BitgetClient.make_request c hmacHex st env method endpoint params).signedMessages
          = [timestampCanonical env.tsMillis (params.getD [])]
        ∧ (∃ rest, timestampCanonical env.tsMillis (params.getD [])
            = toString env.tsMillis ++ rest)
        ∧ ∀ req ∈ (BitgetClient.make_request c hmacHex st env method endpoint params).requests,
            alookup req.headers "ACCESS-TIMESTAMP" = some (toString env.tsMillis))
    ∧ (∀ {R : Type} (c : CoinBaseClient) (env : CallEnv R) cred, c.credentials = some cred →
        (CoinBaseClient.make_request c hmacHex st env method endpoint params).signedMessages
          = [timestampCanonical env.tsMillis (params.getD [])]
        ∧ (∃ rest, timestampCanonical env.tsMillis (params.getD [])
            = toString env.tsMillis ++ rest)
        ∧ ∀ req ∈ (CoinBaseClient.make_request c hmacHex st env method endpoint params).requests,
            alookup req.headers "X-BM-TIMESTAMP" = some (toString env.tsMillis)) := by
  refine ⟨?_, ?_, ?_⟩
  · intro R c env cred hcred
    unfold BingXClient.make_request
    rw [hcred]
    dsimp only
    refine ⟨rfl, ?_⟩
    intro req hreq hget
    rw [if_pos hget] at hreq
    simp only [List.mem_singleton] at hreq
    subst hreq
    dsimp only
    rw [alookup_dictSet_ne _ _ _ _ (by decide), alookup_dictSet]
  · intro R c env cred hcred
    unfold BitgetClient.make_request
    rw [hcred]
    dsimp only
    refine ⟨rfl, ⟨_, rfl⟩, ?_⟩
    intro req hreq
    split at hreq <;>
      simp only [List.mem_singleton] at hreq <;> subst hreq <;>
      simp [alookup_cons, BitgetClient.signature_core, alookup]
  · intro R c env cred hcred
    unfold CoinBaseClient.make_request
    rw [hcred]
    dsimp only
    refine ⟨rfl, ⟨_, rfl⟩, ?_⟩
    intro req hreq
    split at hreq <;>
      simp only [List.mem_singleton] at hreq <;> subst hreq <;>
      simp [alookup_cons, CoinBaseClient.signature_core, alookup]

/-- Witness for C6, on concrete authenticated BingX and Bitget calls with
millisecond timestamp 1234. -/
theorem c6_one_signature_matching_timestamp_witness :
    (BingXClient.make_request ({ credentials := some ⟨"key", "secret", false⟩ } : BingXClient)
        (fun _ m => m) initialState
        ⟨0, 0, 1234, 0, fun _ => (.error "down" : Except String DepthPayload)⟩
        "GET" "/openApi/spot/v1/market/depth"
        (some [("symbol", "BTCUSDT")])).signedMessages
      = [urlencodeItems (sortPairsTuple
          (dictSet [("symbol", "BTCUSDT")] "timestamp" "1234"))]
    ∧ (BitgetClient.make_request ({ credentials := some ⟨"key", "secret"⟩ } : BitgetClient)
        (fun _ m => m) initialState
        ⟨0, 0, 1234, 0, fun _ => (.error "down" : Except String DepthPayload)⟩
        "GET" "/api/v2/spot/market/orderbook"
        (some [("symbol", "BTCUSDT")])).signedMessages
      = [timestampCanonical 1234 [("symbol", "BTCUSDT")]] := by
  constructor
  · exact ((c6_one_signature_matching_timestamp (fun _ m => m) initialState
      "GET" "/openApi/spot/v1/market/depth" (some [("symbol", "BTCUSDT")])).1
      (R := DepthPayload) ({ credentials := some ⟨"key", "secret", false⟩ } : BingXClient)
      ⟨0, 0, 1234, 0, fun _ => (.error "down" : Except String DepthPayload)⟩
      ⟨"key", "secret", false⟩ rfl).1
  · exact ((c6_one_signature_matching_timestamp (fun _ m => m) initialState
      "GET" "/api/v2/spot/market/orderbook" (some [("symbol", "BTCUSDT")])).2.1
      (R := DepthPayload) ({ credentials := some ⟨"key", "secret"⟩ } : BitgetClient)
      ⟨0, 0, 1234, 0, fun _ => (.error "down" : Except String DepthPayload)⟩
      ⟨"key", "secret"⟩ rfl).1

/-! ## C4 groundwork: `quote_plus` is injective (unique decodability)

A decoder back to bytes, and a UTF-8 decoder back to characters, each a
left inverse of the respective encoder, give injectivity of
`pyQuotePlus`: the parameter canonicalization loses no information. -/

/-- Value of an upper-case hex digit. -/
def hexVal (c : Char) : Nat := if 65 ≤ c.toNat then c.toNat - 55 else c.toNat - 48

mutual

/-- Decode a `quote_plus` image back to the byte sequence it encodes. -/
def pctDecode : List Char → Option (List Nat)
  | [] => some []
  | c :: rest =>
    if c = '%' then pctHexPair rest
    else if c = '+' then (pctDecode rest).map fun bs => 32 :: bs
    else (pctDecode rest).map fun bs => c.toNat :: bs

/-- Consume the two hex digits after a `%`. -/
def pctHexPair : List Char → Option (List Nat)
  | h :: lo :: rest2 => (pctDecode rest2).map fun bs => (16 * hexVal h + hexVal lo) :: bs
  | _ => none

end

mutual

/-- Decode a UTF-8 byte sequence back to characters. -/
def utf8Decode : List Nat → Option (List Char)
  | [] => some []
  | b :: rest =>
    if b < 128 then (utf8Decode rest).map fun cs => Char.ofNat b :: cs
    else if b < 224 then utf8Cont1 b rest
    else if b < 240 then utf8Cont2 b rest
    else utf8Cont3 b rest

/-- Consume the one continuation byte of a two-byte sequence. -/
def utf8Cont1 (b : Nat) : List Nat → Option (List Char)
  | b1 :: rest2 =>
    (utf8Decode rest2).map fun cs => Char.ofNat ((b - 192) * 64 + (b1 - 128)) :: cs
  | _ => none

/-- Consume the two continuation bytes of a three-byte sequence. -/
def utf8Cont2 (b : Nat) : List Nat → Option (List Char)
  | b1 :: b2 :: rest2 =>
    (utf8Decode rest2).map fun cs =>
      Char.ofNat ((b - 224) * 4096 + (b1 - 128) * 64 + (b2 - 128)) :: cs
  | _ => none

/-- Consume the three continuation bytes of a four-byte sequence. -/
def utf8Cont3 (b : Nat) : List Nat → Option (List Char)
  | b1 :: b2 :: b3 :: rest2 =>
    (utf8Decode rest2).map fun cs =>
      Char.ofNat ((b - 240) * 262144 + (b1 - 128) * 4096 + (b2 - 128) * 64 + (b3 - 128)) :: cs
  | _ => none

end

lemma hexVal_hexDigitU (n : Nat) (h : n < 16) : hexVal (hexDigitU n) = n := by
  interval_cases n <;> rfl

lemma pctDecode_pctByte (b : Nat) (hb : b < 256) (l : List Char) :
    pctDecode (pctByte b ++ l) = (pctDecode l).map fun bs => b :: bs := by
  show pctDecode ('%' :: hexDigitU (b / 16) :: hexDigitU (b % 16) :: l) = _
  rw [pctDecode]
  rw [if_pos rfl, pctHexPair]
  rw [hexVal_hexDigitU _ (by omega), hexVal_hexDigitU _ (by omega)]
  have : 16 * (b / 16) + b % 16 = b := by omega
  rw [this]

lemma char_toNat_lt (c : Char) : c.toNat < 1114112 := by
  have h := c.valid
  have heq : c.toNat = c.val.toNat := rfl
  rcases h with h | h <;> omega

lemma utf8Bytes_bounded (n : Nat) (hn : n < 1114112) :
    ∀ b ∈ utf8Bytes n, b < 256 := by
  unfold utf8Bytes
  split_ifs <;> intro b hb <;> simp only [List.mem_cons, List.not_mem_nil, or_false] at hb <;>
    rcases hb with rfl | hb <;> try omega
  all_goals (rcases hb with rfl | hb <;> try omega)
  all_goals (rcases hb with rfl | hb <;> try omega)
  all_goals (rcases hb with rfl | hb <;> omega)

lemma pctDecode_flat_bytes :
    ∀ (bs : List Nat), (∀ b ∈ bs, b < 256) → ∀ (l : List Char),
      pctDecode (bs.flatMap pctByte ++ l) = (pctDecode l).map fun r => bs ++ r := by
  intro bs
  induction bs with
  | nil => intro _ l; simp
  | cons b rest ih =>
    intro hbound l
    rw [List.flatMap_cons, List.append_assoc,
      pctDecode_pctByte b (hbound b (List.mem_cons_self _ _)),
      ih (fun x hx => hbound x (List.mem_cons_of_mem _ hx)) l]
    cases pctDecode l <;> rfl

lemma safeByte_facts {c : Char} (h : safeByte c.toNat = true) :
    c.toNat < 128 ∧ c.toNat ≠ 37 ∧ c.toNat ≠ 43 := by
  unfold safeByte at h
  simp only [Bool.or_eq_true, Bool.and_eq_true, decide_eq_true_eq, beq_iff_eq] at h
  omega

lemma pctDecode_encChar (c : Char) (l : List Char) :
    pctDecode (encChar c ++ l) = (pctDecode l).map fun bs => utf8Bytes c.toNat ++ bs := by
  unfold encChar
  split_ifs with h1 h2
  · obtain ⟨hlt, h37, h43⟩ := safeByte_facts h1
    have hc1 : ¬ c = '%' := fun hEq => h37 (by rw [hEq]; rfl)
    have hc2 : ¬ c = '+' := fun hEq => h43 (by rw [hEq]; rfl)
    simp only [List.cons_append, List.nil_append]
    rw [pctDecode, if_neg hc1, if_neg hc2]
    unfold utf8Bytes
    rw [if_pos hlt]
    cases pctDecode l <;> rfl
  · simp only [List.cons_append, List.nil_append]
    rw [pctDecode, if_neg (by decide), if_pos rfl, h2]
    unfold utf8Bytes
    rw [if_pos (by omega)]
    cases pctDecode l <;> rfl
  · exact pctDecode_flat_bytes (utf8Bytes c.toNat) (utf8Bytes_bounded _ (char_toNat_lt c)) l

lemma utf8Decode_utf8Bytes (c : Char) (l : List Nat) :
    utf8Decode (utf8Bytes c.toNat ++ l) = (utf8Decode l).map fun cs => c :: cs := by
  have hofnat := Char.ofNat_toNat c
  have hlt := char_toNat_lt c
  unfold utf8Bytes
  split_ifs with h1 h2 h3
  · simp only [List.cons_append, List.nil_append]
    rw [utf8Decode, if_pos h1, hofnat]
  · simp only [List.cons_append, List.nil_append]
    rw [utf8Decode, if_neg (by omega), if_pos (by omega), utf8Cont1]
    have harith : (192 + c.toNat / 64 - 192) * 64 + (128 + c.toNat % 64 - 128) = c.toNat := by
      omega
    rw [harith, hofnat]
  · simp only [List.cons_append, List.nil_append]
    rw [utf8Decode, if_neg (by omega), if_neg (by omega), if_pos (by omega), utf8Cont2]
    have harith : (224 + c.toNat / 4096 - 224) * 4096 + (128 + c.toNat / 64 % 64 - 128) * 64
        + (128 + c.toNat % 64 - 128) = c.toNat := by omega
    rw [harith, hofnat]
  · simp only [List.cons_append, List.nil_append]
    rw [utf8Decode, if_neg (by omega), if_neg (by omega), if_neg (by omega), utf8Cont3]
    have harith : (240 + c.toNat / 262144 - 240) * 262144
        + (128 + c.toNat / 4096 % 64 - 128) * 4096
        + (128 + c.toNat / 64 % 64 - 128) * 64 + (128 + c.toNat % 64 - 128) = c.toNat := by
      omega
    rw [harith, hofnat]

lemma pctDecode_encodes (cs : List Char) :
    pctDecode (cs.flatMap encChar) = some (cs.flatMap fun c => utf8Bytes c.toNat) := by
  induction cs with
  | nil => rfl
  | cons c rest ih =>
    rw [List.flatMap_cons, pctDecode_encChar, ih, List.flatMap_cons]
    rfl

lemma utf8Decode_encodes (cs : List Char) :
    utf8Decode (cs.flatMap fun c => utf8Bytes c.toNat) = some cs := by
  induction cs with
  | nil => rfl
  | cons c rest ih =>
    rw [List.flatMap_cons, utf8Decode_utf8Bytes, ih]
    rfl

/-- `quote_plus` loses no information. -/
theorem pyQuotePlus_injective : Function.Injective pyQuotePlus := by
  intro s1 s2 h
  have hdata : s1.data.flatMap encChar = s2.data.flatMap encChar := congrArg String.data h
  have h1 := pctDecode_encodes s1.data
  rw [hdata, pctDecode_encodes s2.data] at h1
  have hbytes : (s2.data.flatMap fun c => utf8Bytes c.toNat)
      = s1.data.flatMap fun c => utf8Bytes c.toNat := by
    simpa using h1
  have h2 := utf8Decode_encodes s1.data
  rw [← hbytes, utf8Decode_encodes s2.data] at h2
  have : s2.data = s1.data := by simpa using h2
  cases s1; cases s2
  exact congrArg String.mk this.symm

/-! ## C4 groundwork: on distinct keys, `sorted` is key-determined -/

/-- Strict key order on parameter pairs. -/
def pairKeyLt (a b : String × String) : Prop := strLt a.1 b.1 = true

instance : IsAntisymm (String × String) pairKeyLt :=
  ⟨fun _ _ h1 h2 => (strLt_asymm h1 h2).elim⟩

lemma pairLeTuple_key (a b : String × String) (h : pairLeTuple a b) (hne : a.1 ≠ b.1) :
    pairKeyLt a b := by
  rcases h with h | ⟨he, _⟩
  · exact h
  · exact absurd he hne

lemma pairLeKey_key (a b : String × String) (h : pairLeKey a b) (hne : a.1 ≠ b.1) :
    pairKeyLt a b := by
  rcases h with h | he
  · exact h
  · exact absurd he hne

lemma sorted_pairwise_keyLt {r : (String × String) → (String × String) → Prop}
    (hkey : ∀ a b, r a b → a.1 ≠ b.1 → pairKeyLt a b)
    {l : List (String × String)} (hs : List.Pairwise r l)
    (hnd : (l.map Prod.fst).Nodup) :
    List.Pairwise pairKeyLt l := by
  have hne : List.Pairwise (fun a b : String × String => a.1 ≠ b.1) l := by
    rw [List.Nodup, List.pairwise_map] at hnd
    exact hnd
  exact (hs.and hne).imp fun h => hkey _ _ h.1 h.2

/-- Two key-strictly-sorted permutations of each other are equal: on a
dict the sorted order is unique. -/
lemma sorted_keylt_unique {l1 l2 : List (String × String)} (hp : l1.Perm l2)
    (h1 : List.Pairwise pairKeyLt l1) (h2 : List.Pairwise pairKeyLt l2) : l1 = l2 :=
  List.eq_of_perm_of_sorted hp h1 h2

/-- Replacing the value at one (distinct) key moves through `sorted`:
both sorts decompose around position of key `k` with identical context. -/
lemma sort_replace {r : (String × String) → (String × String) → Prop} [DecidableRel r]
    [IsTotal (String × String) r] [IsTrans (String × String) r]
    (hkey : ∀ a b, r a b → a.1 ≠ b.1 → pairKeyLt a b)
    (A B : List (String × String)) (k v v' : String)
    (hnd : ((A ++ (k, v) :: B).map Prod.fst).Nodup) :
    ∃ X Y, List.insertionSort r (A ++ (k, v) :: B) = X ++ (k, v) :: Y
      ∧ List.insertionSort r (A ++ (k, v') :: B) = X ++ (k, v') :: Y := by
  have hperm1 : (List.insertionSort r (A ++ (k, v) :: B)).Perm (A ++ (k, v) :: B) :=
    List.perm_insertionSort r _
  have hs1 : List.Pairwise pairKeyLt (List.insertionSort r (A ++ (k, v) :: B)) :=
    sorted_pairwise_keyLt hkey (List.sorted_insertionSort r _)
      ((hperm1.map Prod.fst).nodup_iff.mpr hnd)
  have hmem : (k, v) ∈ List.insertionSort r (A ++ (k, v) :: B) :=
    hperm1.mem_iff.mpr (by simp)
  obtain ⟨X, Y, hXY⟩ := List.append_of_mem hmem
  refine ⟨X, Y, hXY, ?_⟩
  have hs1' : List.Pairwise pairKeyLt (X ++ (k, v) :: Y) := hXY ▸ hs1
  have hkeys : (X ++ (k, v) :: Y).map Prod.fst = (X ++ (k, v') :: Y).map Prod.fst := by
    simp
  have hsL2 : List.Pairwise pairKeyLt (X ++ (k, v') :: Y) := by
    have hm : List.Pairwise (fun a b : String => strLt a b = true)
        ((X ++ (k, v) :: Y).map Prod.fst) := by
      rw [List.pairwise_map]
      exact hs1'
    rw [hkeys, List.pairwise_map] at hm
    exact hm
  have hpermXY : (X ++ (k, v) :: Y).Perm (A ++ (k, v) :: B) := hXY ▸ hperm1
  have hXYAB : (X ++ Y).Perm (A ++ B) := by
    have hstep : ((k, v) :: (X ++ Y)).Perm ((k, v) :: (A ++ B)) :=
      (List.perm_middle.symm.trans hpermXY).trans List.perm_middle
    exact hstep.cons_inv
  have hpL2 : (X ++ (k, v') :: Y).Perm (A ++ (k, v') :: B) :=
    (List.perm_middle.trans (hXYAB.cons (k, v'))).trans List.perm_middle.symm
  have hperm2 : (List.insertionSort r (A ++ (k, v') :: B)).Perm (A ++ (k, v') :: B) :=
    List.perm_insertionSort r _
  have hnd2 : ((A ++ (k, v') :: B).map Prod.fst).Nodup := by
    have he : (A ++ (k, v') :: B).map Prod.fst = (A ++ (k, v) :: B).map Prod.fst := by simp
    rw [he]
    exact hnd
  have hs2 : List.Pairwise pairKeyLt (List.insertionSort r (A ++ (k, v') :: B)) :=
    sorted_pairwise_keyLt hkey (List.sorted_insertionSort r _)
      ((hperm2.map Prod.fst).nodup_iff.mpr hnd2)
  exact sorted_keylt_unique (hperm2.trans hpL2.symm) hs2 hsL2

/-- On a dict, `sorted` does not depend on insertion order. -/
lemma sort_perm_eq {r : (String × String) → (String × String) → Prop} [DecidableRel r]
    [IsTotal (String × String) r] [IsTrans (String × String) r]
    (hkey : ∀ a b, r a b → a.1 ≠ b.1 → pairKeyLt a b)
    {p1 p2 : List (String × String)} (hp : p1.Perm p2)
    (hnd : (p1.map Prod.fst).Nodup) :
    List.insertionSort r p1 = List.insertionSort r p2 := by
  have hnd2 : (p2.map Prod.fst).Nodup := ((hp.map Prod.fst).nodup_iff).mp hnd
  exact sorted_keylt_unique
    ((List.perm_insertionSort r p1).trans (hp.trans (List.perm_insertionSort r p2).symm))
    (sorted_pairwise_keyLt hkey (List.sorted_insertionSort r _)
      (((List.perm_insertionSort r p1).map Prod.fst).nodup_iff.mpr hnd))
    (sorted_pairwise_keyLt hkey (List.sorted_insertionSort r _)
      (((List.perm_insertionSort r p2).map Prod.fst).nodup_iff.mpr hnd2))

/-! ## C4 groundwork: canonical strings separate the changed value -/

lemma concatAll_data : ∀ l : List String, (concatAll l).data = (l.map String.data).flatten := by
  intro l
  induction l with
  | nil => rfl
  | cons x rest ih =>
    show (x ++ concatAll rest).data = _
    rw [String.data_append, ih, List.map_cons, List.flatten_cons]

lemma joinAmp_cons_cons (x y : String) (rest : List String) :
    joinAmp (x :: y :: rest) = x ++ "&" ++ joinAmp (y :: rest) := rfl

/-- The `&`-join of pieces around a fixed context is a fixed prefix, the
piece, and a fixed suffix. -/
lemma joinAmp_decomp (f : (String × String) → String) (X Y : List (String × String)) :
    ∃ P S : List Char, ∀ p : String × String,
      (joinAmp ((X ++ p :: Y).map f)).data = P ++ (f p).data ++ S := by
  induction X with
  | nil =>
    cases Y with
    | nil =>
      refine ⟨[], [], fun p => ?_⟩
      show (joinAmp [f p]).data = _
      simp [joinAmp]
    | cons y ys =>
      refine ⟨[], "&".data ++ (joinAmp ((y :: ys).map f)).data, fun p => ?_⟩
      show (joinAmp (f p :: f y :: ys.map f)).data = _
      rw [joinAmp_cons_cons, String.data_append, String.data_append, List.map_cons,
        List.append_assoc, List.nil_append]
  | cons x xs ih =>
    obtain ⟨P, S, hPS⟩ := ih
    refine ⟨(f x).data ++ "&".data ++ P, S, fun p => ?_⟩
    have hne : ∃ z zs, (xs ++ p :: Y).map f = z :: zs := by
      cases hxs : xs with
      | nil => exact ⟨f p, Y.map f, by simp⟩
      | cons a as => exact ⟨f a, (as ++ p :: Y).map f, by simp⟩
    obtain ⟨z, zs, hz⟩ := hne
    show (joinAmp (f x :: (xs ++ p :: Y).map f)).data = _
    rw [hz, joinAmp_cons_cons, ← hz, String.data_append, String.data_append, hPS p]
    simp [List.append_assoc]

lemma string_eq_of_data_eq {a b : String} (h : a.data = b.data) : a = b := by
  cases a; cases b
  exact congrArg String.mk h

/-- Changing the value at one key of a dict changes the BingX canonical
query string. -/
lemma urlencodeItems_sorted_inj_single
    (A B : List (String × String)) (k v v' : String)
    (hnd : ((A ++ (k, v) :: B).map Prod.fst).Nodup)
    (heq : urlencodeItems (sortPairsTuple (A ++ (k, v) :: B))
      = urlencodeItems (sortPairsTuple (A ++ (k, v') :: B))) : v = v' := by
  obtain ⟨X, Y, h1, h2⟩ := sort_replace pairLeTuple_key A B k v v' hnd
  unfold sortPairsTuple at heq
  rw [h1, h2] at heq
  unfold urlencodeItems at heq
  obtain ⟨P, S, hPS⟩ :=
    joinAmp_decomp (fun kv => pyQuotePlus kv.1 ++ "=" ++ pyQuotePlus kv.2) X Y
  have hd := congrArg String.data heq
  rw [hPS (k, v), hPS (k, v')] at hd
  simp only [String.data_append, List.append_assoc] at hd
  have hd1 := List.append_cancel_left hd
  have hd2 := List.append_cancel_left hd1
  have hd3 := List.append_cancel_left hd2
  have hd4 := List.append_cancel_right hd3
  exact pyQuotePlus_injective (string_eq_of_data_eq hd4)

/-- Changing the value at one key of a dict changes the timestamp-prefixed
canonical string. -/
lemma timestampCanonical_inj_single
    (ts : Int) (A B : List (String × String)) (k v v' : String)
    (hnd : ((A ++ (k, v) :: B).map Prod.fst).Nodup)
    (heq : timestampCanonical ts (A ++ (k, v) :: B)
      = timestampCanonical ts (A ++ (k, v') :: B)) : v = v' := by
  obtain ⟨X, Y, h1, h2⟩ := sort_replace pairLeKey_key A B k v v' hnd
  unfold timestampCanonical sortPairsKey at heq
  rw [h1, h2] at heq
  have he1 : (A ++ (k, v) :: B).isEmpty = false := by simp
  have he2 : (A ++ (k, v') :: B).isEmpty = false := by simp
  rw [he1, he2] at heq
  simp only [Bool.false_eq_true, if_false] at heq
  have hd := congrArg String.data heq
  simp only [String.data_append, concatAll_data, List.map_append, List.map_cons,
    List.flatten_append, List.flatten_cons, List.map_map, Function.comp,
    List.append_assoc] at hd
  have hd1 := List.append_cancel_left hd
  have hd2 := List.append_cancel_left hd1
  have hd3 := List.append_cancel_left hd2
  have hd4 := List.append_cancel_right hd3
  exact string_eq_of_data_eq hd4

/-- **C4.**  The Signer is deterministic and parameter-sensitive.
Determinism: the signature depends only on the parameter *mapping* (and,
for the timestamp-prefixed family, the timestamp): any two insertion
orders of the same dict sign identically, for any HMAC primitive.
Sensitivity: changing the value of any single parameter changes the
canonical string, hence — for a collision-free HMAC primitive, the
standard idealization of HMAC-SHA256 — the signature. -/
theorem c4_signer_deterministic_sensitive (hmacHex : String → String → String) :
    (∀ (cred : BingXCredentials) (p1 p2 : List (String × String)),
        p1.Perm p2 → KeysNodup p1 →
        BingXClient.signature_core cred hmacHex p1
          = BingXClient.signature_core cred hmacHex p2)
    ∧ (∀ (cred : BitgetCredentials) (ts : Int) (p1 p2 : List (String × String)),
        p1.Perm p2 → KeysNodup p1 →
        BitgetClient.signature_core cred hmacHex ts p1
          = BitgetClient.signature_core cred hmacHex ts p2)
    ∧ ((∀ s, Function.Injective (hmacHex s)) →
        (∀ (cred : BingXCredentials) (A B : List (String × String)) (k v v' : String),
          v ≠ v' → KeysNodup (A ++ (k, v) :: B) →
          BingXClient.signature_core cred hmacHex (A ++ (k, v) :: B)
            ≠ BingXClient.signature_core cred hmacHex (A ++ (k, v') :: B))
        ∧ (∀ (cred : BitgetCredentials) (ts : Int) (A B : List (String × String))
            (k v v' : String),
          v ≠ v' → KeysNodup (A ++ (k, v) :: B) →
          (BitgetClient.signature_core cred hmacHex ts (A ++ (k, v) :: B)).1
            ≠ (BitgetClient.signature_core cred hmacHex ts (A ++ (k, v') :: B)).1)) := by
  refine ⟨?_, ?_, fun hinj => ⟨?_, ?_⟩⟩
  · intro cred p1 p2 hp hnd
    unfold BingXClient.signature_core
    rw [show sortPairsTuple p1 = sortPairsTuple p2 from
      sort_perm_eq pairLeTuple_key hp hnd]
  · intro cred ts p1 p2 hp hnd
    unfold BitgetClient.signature_core
    have hc : timestampCanonical ts p1 = timestampCanonical ts p2 := by
      unfold timestampCanonical sortPairsKey
      have he : p1.isEmpty = p2.isEmpty := by
        have := hp.length_eq
        cases p1 <;> cases p2 <;> simp_all
      rw [he, sort_perm_eq pairLeKey_key hp hnd]
    rw [hc]
  · intro cred A B k v v' hne hnd heq
    unfold BingXClient.signature_core at heq
    exact hne (urlencodeItems_sorted_inj_single A B k v v' hnd (hinj cred.api_secret heq))
  · intro cred ts A B k v v' hne hnd heq
    unfold BitgetClient.signature_core at heq
    dsimp only at heq
    exact hne (timestampCanonical_inj_single ts A B k v v' hnd (hinj cred.api_secret heq))

/-- Witness for C4: with the identity-in-message HMAC stand-in (injective),
two insertion orders of the same dict sign identically for both families,
and changing the value of parameter "a" changes both signatures. -/
theorem c4_signer_deterministic_sensitive_witness :
    BingXClient.signature_core ⟨"key", "secret", false⟩ (fun _ m => m) [("b", "2"), ("a", "1")]
      = BingXClient.signature_core ⟨"key", "secret", false⟩ (fun _ m => m) [("a", "1"), ("b", "2")]
    ∧ BitgetClient.signature_core ⟨"key", "secret"⟩ (fun _ m => m) 1234 [("b", "2"), ("a", "1")]
      = BitgetClient.signature_core ⟨"key", "secret"⟩ (fun _ m => m) 1234 [("a", "1"), ("b", "2")]
    ∧ BingXClient.signature_core ⟨"key", "secret", false⟩ (fun _ m => m) [("a", "1")]
      ≠ BingXClient.signature_core ⟨"key", "secret", false⟩ (fun _ m => m) [("a", "2")]
    ∧ (BitgetClient.signature_core ⟨"key", "secret"⟩ (fun _ m => m) 1234 [("a", "1")]).1
      ≠ (BitgetClient.signature_core ⟨"key", "secret"⟩ (fun _ m => m) 1234 [("a", "2")]).1 := by
  have h := c4_signer_deterministic_sensitive (fun _ m => m)
  exact ⟨h.1 ⟨"key", "secret", false⟩ _ _ (by decide) (by decide),
    h.2.1 ⟨"key", "secret"⟩ 1234 _ _ (by decide) (by decide),
    (h.2.2 fun _ _ _ hab => hab).1 ⟨"key", "secret", false⟩ [] [] "a" "1" "2"
      (by decide) (by decide),
    (h.2.2 fun _ _ _ hab => hab).2 ⟨"key", "secret"⟩ 1234 [] [] "a" "1" "2"
      (by decide) (by decide)⟩

end Arbtr
